import Mathlib

/-!
Verification of the DalamudPlugins plugin-master generator
(generate_pluginmaster.py) against its natural-language specification.

The script is shallowly embedded: Python dicts holding JSON data become
association lists of string keys and `Val` values (first occurrence is the
binding, mirroring unique-key dicts); network and filesystem collaborators
become explicit oracle functions carried in a context record; the
filesystem touched by the output writer becomes an association list from
file name to file data.  All string manipulation is re-implemented as
structural recursion over character lists so that every definition
evaluates inside the kernel.
-/

/-- JSON-ish scalar values stored in a manifest. Nested arrays/objects are
not needed by any property verified here. `null` stands for Python None. -/
inductive Val where
  | str : String → Val
  | int : Int → Val
  | bool : Bool → Val
  | null : Val
deriving DecidableEq

/-- Python truthiness for the values a manifest can hold. -/
def truthy : Val → Bool
  | Val.str s => !(s == "")
  | Val.int n => n != 0
  | Val.bool b => b
  | Val.null => false

/-- Python equality test against the integer 0 (0 == 0, False == 0). -/
def pyEqZero : Val → Bool
  | Val.int n => n == 0
  | Val.bool b => !b
  | _ => false

/-- A manifest: a Python dict from field name to value.  The first
occurrence of a key is its binding. -/
abbrev Manifest := List (String × Val)

/-- Dict lookup (d.get(k)). -/
def mget : Manifest → String → Option Val
  | [], _ => none
  | (k0, v0) :: rest, k => if k0 = k then some v0 else mget rest k

/-- Dict lookup with default (d.get(k, dflt)). -/
def mgetD (m : Manifest) (k : String) (dflt : Val) : Val :=
  (mget m k).getD dflt

/-- Lookup expecting a string value; returns the default when the key is
absent (in Python a non-string value would crash the caller, a case no
spec claim exercises). -/
def getStrD (m : Manifest) (k : String) (dflt : String) : String :=
  match mget m k with
  | some (Val.str s) => s
  | _ => dflt

/-- Key membership (k in d). -/
def hasKey (m : Manifest) (k : String) : Bool :=
  (mget m k).isSome

/-- Dict assignment d[k] = v: updates the first binding in place, else
appends (insertion order, as in Python dicts). -/
def mset : Manifest → String → Val → Manifest
  | [], k, v => [(k, v)]
  | (k0, v0) :: rest, k, v =>
      if k0 = k then (k0, v) :: rest else (k0, v0) :: mset rest k v

/-- Dict deletion of the (unique) binding of k, as done by dict.pop. -/
def mdel : Manifest → String → Manifest
  | [], _ => []
  | (k0, v0) :: rest, k => if k0 = k then rest else (k0, v0) :: mdel rest k

/-- Key-dropping dict comprehension: all pairs whose key differs from k. -/
def mdropKey (m : Manifest) (k : String) : Manifest :=
  m.filter (fun kv => kv.1 != k)

/-! ### String helpers (structural, kernel-evaluable) -/

/-- List.isPrefix as a Bool, by direct recursion. -/
def listLeads : List Char → List Char → Bool
  | _, [] => true
  | [], _ :: _ => false
  | a :: as, b :: bs => a == b && listLeads as bs

/-- s.startswith(pat). -/
def strLeads (s pat : String) : Bool := listLeads s.data pat.data

/-- s.endswith(pat). -/
def strTrails (s pat : String) : Bool := listLeads s.data.reverse pat.data.reverse

/-- Substring containment (pat in s). -/
def listHasSub (s pat : List Char) : Bool :=
  match s with
  | [] => listLeads [] pat
  | _ :: cs => listLeads s pat || listHasSub cs pat

/-- pat occurs somewhere in s. -/
def strHasSub (s pat : String) : Bool := listHasSub s.data pat.data

/-- Python str.split(sep) for a single-character separator. -/
def splitOnChar (sep : Char) : List Char → List (List Char)
  | [] => [[]]
  | c :: cs =>
      if c == sep then [] :: splitOnChar sep cs
      else
        match splitOnChar sep cs with
        | [] => [[c]]
        | g :: gs => (c :: g) :: gs

/-- Join char-list pieces with a separator string, Python str.join. -/
def joinWithList (sep : List Char) : List (List Char) → List Char
  | [] => []
  | [x] => x
  | x :: y :: rest => x ++ sep ++ joinWithList sep (y :: rest)

/-- One fuel-indexed step of replace-all: if pat matches here, emit rep and
skip pat, else keep the char. Fuel bounds the number of consumed chars. -/
def replaceFuel (pat rep : List Char) : Nat → List Char → List Char
  | 0, s => s
  | _ + 1, [] => []
  | fuel + 1, c :: cs =>
      if !pat.isEmpty && listLeads (c :: cs) pat then
        rep ++ replaceFuel pat rep fuel (List.drop pat.length (c :: cs))
      else
        c :: replaceFuel pat rep fuel cs

/-- Python s.replace(pat, rep) for a non-empty pattern. -/
def strReplace (s pat rep : String) : String :=
  ⟨replaceFuel pat.data rep.data (s.data.length + 1) s.data⟩

/-- Python s.rstrip("/"). -/
def rstripSlash (s : String) : String :=
  ⟨(s.data.reverse.dropWhile (fun c => c == '/')).reverse⟩

/-- Parse a non-empty all-digit char list as a natural number. -/
def parseDigits : List Char → Option Nat
  | [] => none
  | cs =>
      cs.foldl
        (fun acc c =>
          match acc with
          | none => none
          | some n => if c.isDigit then some (n * 10 + (c.toNat - 48)) else none)
        (some 0)

/-- Python int(s) restricted to an optional sign followed by decimal
digits (no surrounding whitespace or underscores, which no version string
in this repository uses). -/
def pyInt : String → Option Int
  | s =>
      match s.data with
      | '-' :: rest => (parseDigits rest).map (fun n => -(n : Int))
      | '+' :: rest => (parseDigits rest).map (fun n => (n : Int))
      | cs => (parseDigits cs).map (fun n => (n : Int))

/-- str.format of the two placeholders used by the download URL templates. -/
def formatUrl (tpl branch pluginName : String) : String :=
  strReplace (strReplace tpl "\x7bbranch\x7d" branch) "\x7bplugin_name\x7d" pluginName

/-! ### Version comparison (PluginMasterGenerator._choose_better_manifest) -/

/-- [int(x) for x in v.split(".")] — None when any component fails. -/
def versionParts : String → Option (List Int)
  | s => partsAux (splitOnChar '.' s.data)
where
  partsAux : List (List Char) → Option (List Int)
    | [] => some []
    | c :: cs =>
        match pyInt ⟨c⟩, partsAux cs with
        | some v, some vs => some (v :: vs)
        | _, _ => none

/-- Python list comparison a >= b on integer lists (lexicographic). -/
def pyListGe : List Int → List Int → Bool
  | [], [] => true
  | [], _ :: _ => false
  | _ :: _, [] => true
  | a :: as, b :: bs => if a > b then true else if a < b then false else pyListGe as bs

/-- parts.extend([0] * (max_len - len(parts))). -/
def padZeros (l : List Int) (n : Nat) : List Int :=
  l ++ List.replicate (n - l.length) 0

/-- PluginMasterGenerator._choose_better_manifest: pick the repository or
the local manifest for the same plugin by comparing AssemblyVersion. -/
def choose_better_manifest (repoManifest localManifest : Manifest) : Manifest :=
  let repoVersion := getStrD repoManifest "AssemblyVersion" "0.0"
  let localVersion := getStrD localManifest "AssemblyVersion" "0.0"
  if repoVersion = localVersion then repoManifest
  else
    match versionParts repoVersion, versionParts localVersion with
    | some repoParts, some localParts =>
        let maxLen := max repoParts.length localParts.length
        if pyListGe (padZeros repoParts maxLen) (padZeros localParts maxLen) then repoManifest
        else localManifest
    | _, _ => repoManifest

/-- Modelled from the spec's words (VersionResolver, §4.3 and the
SourceAggregator tie-break): the repository candidate wins exactly when
either version string fails to parse under the dotted-integer scheme, or
the repository tuple, zero-padded to a common length, compares greater or
equal lexicographically. -/
def specRepoWins (repoVersion localVersion : String) : Bool :=
  match versionParts repoVersion, versionParts localVersion with
  | some repoParts, some localParts =>
      let maxLen := max repoParts.length localParts.length
      pyListGe (padZeros repoParts maxLen) (padZeros localParts maxLen)
  | _, _ => true

theorem pyListGe_refl (l : List Int) : pyListGe l l = true := by
  induction l with
  | nil => rfl
  | cons a as ih => simp [pyListGe, ih]

/-- Claim C1: conflict resolution returns the repository manifest exactly
when the repository version is greater or equal under the padded
dotted-integer comparison or either version fails to parse, and the local
manifest only when the local version is strictly greater; in particular
repo "1.0.1" beats local "1.0.0", local "1.0.1" beats repo "1.0.0", and
the numerically equal pair "1.2.0" / "1.2" resolves to the repository. -/
theorem claim_C1 :
    (∀ repoManifest localManifest : Manifest,
      choose_better_manifest repoManifest localManifest =
        if specRepoWins (getStrD repoManifest "AssemblyVersion" "0.0")
            (getStrD localManifest "AssemblyVersion" "0.0")
        then repoManifest else localManifest)
    ∧ choose_better_manifest [("AssemblyVersion", Val.str "1.0.1")]
        [("AssemblyVersion", Val.str "1.0.0")] = [("AssemblyVersion", Val.str "1.0.1")]
    ∧ choose_better_manifest [("AssemblyVersion", Val.str "1.0.0")]
        [("AssemblyVersion", Val.str "1.0.1")] = [("AssemblyVersion", Val.str "1.0.1")]
    ∧ choose_better_manifest [("AssemblyVersion", Val.str "1.2.0")]
        [("AssemblyVersion", Val.str "1.2")] = [("AssemblyVersion", Val.str "1.2.0")] := by
  refine ⟨?_, by decide, by decide, by decide⟩
  intro repoManifest localManifest
  unfold choose_better_manifest specRepoWins
  by_cases hEq :
      getStrD repoManifest "AssemblyVersion" "0.0" = getStrD localManifest "AssemblyVersion" "0.0"
  · simp only [hEq, if_pos rfl]
    cases hp : versionParts (getStrD localManifest "AssemblyVersion" "0.0") with
    | none => simp
    | some parts => simp [pyListGe_refl]
  · simp only [if_neg hEq]
    cases hr : versionParts (getStrD repoManifest "AssemblyVersion" "0.0") with
    | none => simp
    | some repoParts =>
        cases hl : versionParts (getStrD localManifest "AssemblyVersion" "0.0") with
        | none => simp
        | some localParts => simp

/-! ### Release assets and asset selection -/

/-- One named downloadable artifact of a release (name plus API locator). -/
structure Asset where
  name : String
  url : String
deriving DecidableEq

/-- External collaborators of the enrichment step, with fixed outcomes:
the latest-release asset listing per (owner, repo), the single
asset-API-locator to asset-name lookup (keyed also by the token name the
code resolves first), and local icon existence. -/
structure World where
  latestReleaseAssets : String → String → Option (List Asset)
  assetNameLookup : String → Val → Option String
  iconExists : String → Bool

/-- RepositoryPluginProcessor._find_plugin_asset: ordered scan of the
release assets, returning the chosen asset's API url. -/
def find_plugin_asset (assets : List Asset) (pluginName : String) : Option String :=
  let nameNoSpaces := strReplace pluginName " " ""
  let nameDashes := strReplace pluginName " " "-"
  match assets.find? (fun a => a.name == "latest.zip") with
  | some a => some a.url
  | none =>
  match assets.find? (fun a => a.name == pluginName ++ ".zip") with
  | some a => some a.url
  | none =>
  match assets.find? (fun a => a.name == nameNoSpaces ++ ".zip") with
  | some a => some a.url
  | none =>
  match assets.find? (fun a => a.name == nameDashes ++ ".zip") with
  | some a => some a.url
  | none =>
  match assets.find? (fun a => strTrails a.name ".zip" && strLeads a.name (pluginName ++ "-")) with
  | some a => some a.url
  | none =>
  match assets.find? (fun a => strTrails a.name ".zip") with
  | some a => some a.url
  | none => none

/-- The ordered asset scan inside PluginProcessor._get_repo_download_url,
returning the chosen asset's name (the preferred_asset_name loops). -/
def pickRepoAssetName (assets : List Asset) (pluginName : String) : Option String :=
  match assets.find? (fun a => a.name == "latest.zip") with
  | some a => some a.name
  | none =>
  match assets.find? (fun a =>
      strTrails a.name ".zip" && strLeads a.name (pluginName ++ "-")
        && !(strTrails a.name "-latest.zip")) with
  | some a => some a.name
  | none =>
  match assets.find? (fun a => a.name == pluginName ++ ".zip") with
  | some a => some a.name
  | none =>
  match assets.find? (fun a => strTrails a.name ".zip") with
  | some a => some a.name
  | none => none

/-- PluginProcessor._get_repo_download_url: parse RepoUrl, fetch the
latest release's assets and build a stable public URL for the picked
asset name. -/
def get_repo_download_url (w : World) (m : Manifest) : Option String :=
  let repoUrl := getStrD m "RepoUrl" ""
  if repoUrl.isEmpty || !(strHasSub repoUrl "github.com") then none
  else
    let repoPath := rstripSlash (strReplace repoUrl "https://github.com/" "")
    if !(strHasSub repoPath "/") then none
    else
      match splitOnChar '/' repoPath.data with
      | [] => none
      | ownerCs :: restCs =>
          let owner : String := ⟨ownerCs⟩
          let repo : String := ⟨joinWithList ['/'] restCs⟩
          match w.latestReleaseAssets owner repo with
          | none => none
          | some assets =>
              match pickRepoAssetName assets (getStrD m "InternalName" "") with
              | some assetName =>
                  some ("https://github.com/" ++ owner ++ "/" ++ repo
                    ++ "/releases/latest/download/" ++ assetName)
              | none => none

/-- Claim C3 (amended): with no latest.zip asset present, the
repository-asset-selection path (_find_plugin_asset) returns the asset
literally named pluginName.zip whenever one exists, regardless of asset
order; the download-URL path (_get_repo_download_url) instead checks the
dash-prefixed rule before the exact-name rule, returning the first
non--latest prefix-matching asset whenever one exists. -/
theorem claim_C3 :
    (∀ (assets : List Asset) (pluginName : String),
      (∀ a ∈ assets, a.name ≠ "latest.zip") →
      (∃ a ∈ assets, a.name = pluginName ++ ".zip") →
      find_plugin_asset assets pluginName =
        (assets.find? (fun a => a.name == pluginName ++ ".zip")).map Asset.url)
    ∧ (∀ (assets : List Asset) (pluginName : String),
      (∀ a ∈ assets, a.name ≠ "latest.zip") →
      (∃ a ∈ assets, (strTrails a.name ".zip" && strLeads a.name (pluginName ++ "-")
          && !(strTrails a.name "-latest.zip")) = true) →
      pickRepoAssetName assets pluginName =
        (assets.find? (fun a => strTrails a.name ".zip" && strLeads a.name (pluginName ++ "-")
          && !(strTrails a.name "-latest.zip"))).map Asset.name) := by
  constructor
  · intro assets pluginName hNoLatest hExact
    have h1 : assets.find? (fun a => a.name == "latest.zip") = none :=
      List.find?_eq_none.mpr (fun a ha => by simpa using hNoLatest a ha)
    unfold find_plugin_asset
    rw [h1]
    obtain ⟨a, haMem, haName⟩ := hExact
    cases h2 : assets.find? (fun a => a.name == pluginName ++ ".zip") with
    | none =>
        exact absurd (List.find?_eq_none.mp h2 a haMem) (by simp [haName])
    | some b => simp
  · intro assets pluginName hNoLatest hPref
    have h1 : assets.find? (fun a => a.name == "latest.zip") = none :=
      List.find?_eq_none.mpr (fun a ha => by simpa using hNoLatest a ha)
    unfold pickRepoAssetName
    rw [h1]
    obtain ⟨a, haMem, haP⟩ := hPref
    cases h2 : assets.find? (fun a => strTrails a.name ".zip"
        && strLeads a.name (pluginName ++ "-") && !(strTrails a.name "-latest.zip")) with
    | none => exact absurd (List.find?_eq_none.mp h2 a haMem) (by simp [haP])
    | some b => simp

/-- Claim C3 counterexample: at the concrete release with assets Foo.zip
and Foo-1.0.0.zip (no latest.zip), the download-URL selection path
returns the prefix-matching asset, not the exactly-named one that the
claim requires for both paths. -/
theorem claim_C3_cx :
    pickRepoAssetName [⟨"Foo.zip", "u1"⟩, ⟨"Foo-1.0.0.zip", "u2"⟩] "Foo" = some "Foo-1.0.0.zip"
    ∧ get_repo_download_url
        ⟨fun owner repo =>
          if owner = "o" && repo = "r" then some [⟨"Foo.zip", "u1"⟩, ⟨"Foo-1.0.0.zip", "u2"⟩]
          else none,
         fun _ _ => none, fun _ => false⟩
        [("RepoUrl", Val.str "https://github.com/o/r"), ("InternalName", Val.str "Foo")]
      = some "https://github.com/o/r/releases/latest/download/Foo-1.0.0.zip"
    ∧ ("Foo-1.0.0.zip" : String) ≠ "Foo.zip" := by
  refine ⟨by decide, by decide, by decide⟩

/-- Claim C3 witness: the amended statement applied at a concrete asset
list exercising both hypotheses. -/
theorem claim_C3_witness :
    (∀ a ∈ [Asset.mk "Foo.zip" "u1", Asset.mk "Bar-1.zip" "u3"], a.name ≠ "latest.zip")
    ∧ find_plugin_asset [Asset.mk "Foo.zip" "u1", Asset.mk "Bar-1.zip" "u3"] "Foo" =
        (([Asset.mk "Foo.zip" "u1", Asset.mk "Bar-1.zip" "u3"]).find?
          (fun a => a.name == "Foo" ++ ".zip")).map Asset.url :=
  ⟨by decide, claim_C3.1 _ "Foo" (by decide) ⟨Asset.mk "Foo.zip" "u1", by decide, by decide⟩⟩

/-- Claim C4 (amended): in the download-URL path (_get_repo_download_url)
an asset named pluginName-...-latest.zip is excluded from the prefix rule
and can only be picked by the last-resort first-.zip rule, so the given
two-asset list yields other.zip there; the repository-asset-selection
path (_find_plugin_asset) has no such exclusion and picks the
prefix-matching -latest asset instead. -/
theorem claim_C4 :
    (∀ (assets : List Asset) (pluginName : String),
      (∀ a ∈ assets, a.name ≠ "latest.zip") →
      (∀ a ∈ assets, ¬((strTrails a.name ".zip" && strLeads a.name (pluginName ++ "-")
          && !(strTrails a.name "-latest.zip")) = true)) →
      (∀ a ∈ assets, a.name ≠ pluginName ++ ".zip") →
      pickRepoAssetName assets pluginName =
        (assets.find? (fun a => strTrails a.name ".zip")).map Asset.name)
    ∧ pickRepoAssetName [⟨"other.zip", "u1"⟩, ⟨"Foo-1.2.3-latest.zip", "u2"⟩] "Foo"
        = some "other.zip"
    ∧ get_repo_download_url
        ⟨fun owner repo =>
          if owner = "o" && repo = "r" then
            some [⟨"other.zip", "u1"⟩, ⟨"Foo-1.2.3-latest.zip", "u2"⟩]
          else none,
         fun _ _ => none, fun _ => false⟩
        [("RepoUrl", Val.str "https://github.com/o/r"), ("InternalName", Val.str "Foo")]
      = some "https://github.com/o/r/releases/latest/download/other.zip" := by
  refine ⟨?_, by decide, by decide⟩
  intro assets pluginName hNoLatest hNoPref hNoExact
  have h1 : assets.find? (fun a => a.name == "latest.zip") = none :=
    List.find?_eq_none.mpr (fun a ha => by simpa using hNoLatest a ha)
  have h2 : assets.find? (fun a => strTrails a.name ".zip"
      && strLeads a.name (pluginName ++ "-") && !(strTrails a.name "-latest.zip")) = none :=
    List.find?_eq_none.mpr (fun a ha => by simpa using hNoPref a ha)
  have h3 : assets.find? (fun a => a.name == pluginName ++ ".zip") = none :=
    List.find?_eq_none.mpr (fun a ha => by simpa using hNoExact a ha)
  unfold pickRepoAssetName
  rw [h1, h2, h3]
  cases h4 : assets.find? (fun a => strTrails a.name ".zip") with
  | none => simp
  | some b => simp

/-- Claim C4 counterexample: with assets other.zip and
Foo-1.2.3-latest.zip, the repository-asset-selection path chooses the
-latest asset by its (exclusion-free) prefix rule, while the claim
requires other.zip on both paths. -/
theorem claim_C4_cx :
    find_plugin_asset [⟨"other.zip", "u1"⟩, ⟨"Foo-1.2.3-latest.zip", "u2"⟩] "Foo" = some "u2"
    ∧ ("u2" : String) ≠ "u1" := by
  refine ⟨by decide, by decide⟩

/-- Claim C4 witness: the amended statement applied at a concrete asset
list exercising every hypothesis. -/
theorem claim_C4_witness :
    (∀ a ∈ [Asset.mk "other.zip" "u1", Asset.mk "Foo-1.2.3-latest.zip" "u2"],
      a.name ≠ "latest.zip")
    ∧ pickRepoAssetName [Asset.mk "other.zip" "u1", Asset.mk "Foo-1.2.3-latest.zip" "u2"] "Foo" =
        (([Asset.mk "other.zip" "u1", Asset.mk "Foo-1.2.3-latest.zip" "u2"]).find?
          (fun a => strTrails a.name ".zip")).map Asset.name :=
  ⟨by decide, claim_C4.1 _ "Foo" (by decide) (by decide) (by decide)⟩

/-! ### Basic dictionary lemmas -/

theorem mget_mset_self (m : Manifest) (k : String) (v : Val) :
    mget (mset m k v) k = some v := by
  induction m with
  | nil => simp [mset, mget]
  | cons kv rest ih =>
      obtain ⟨k0, v0⟩ := kv
      by_cases h : k0 = k
      · simp [mset, mget, h]
      · simp [mset, mget, h, ih]

theorem mget_mset_ne (m : Manifest) (k k' : String) (v : Val) (h : k ≠ k') :
    mget (mset m k v) k' = mget m k' := by
  induction m with
  | nil => simp [mset, mget, h]
  | cons kv rest ih =>
      obtain ⟨k0, v0⟩ := kv
      by_cases h0 : k0 = k
      · subst h0
        simp [mset, mget, h]
      · simp [mset, mget, h0, ih]

theorem mset_cancel (m : Manifest) (k : String) (v : Val) (h : mget m k = some v) :
    mset m k v = m := by
  induction m with
  | nil => simp [mget] at h
  | cons kv rest ih =>
      obtain ⟨k0, v0⟩ := kv
      by_cases h0 : k0 = k
      · subst h0
        simp [mget] at h
        simp [mset, h]
      · simp [mget, h0] at h
        simp [mset, h0, ih h]

theorem hasKey_mset (m : Manifest) (k k' : String) (v : Val) :
    hasKey (mset m k v) k' = (k == k' || hasKey m k') := by
  by_cases h : k = k'
  · subst h
    simp [hasKey, mget_mset_self]
  · simp [hasKey, mget_mset_ne m k k' v h, h]

/-! ### Configuration and filesystem model -/

/-- The fields of the Config dataclass the verified components read.
Paths are plain file names (every source path lives in the working
directory), and the three download URL templates are split out of the
download_urls dict by their fixed keys. -/
structure Config where
  branch : String
  outputFiles : List (String × String)
  pluginOutputs : List (String × String)
  dlMain : String
  dlTesting : String
  dlGlobal : String
  requiredManifestKeys : List String
  fieldDuplicates : List (String × List String)
  repo : String
  globalApiLevel : Int

/-- Content of a file in the working directory: a parseable catalog (a
JSON list of manifests) or any other byte content. -/
inductive FileData where
  | catalog : List Manifest → FileData
  | other : String → FileData
deriving DecidableEq

/-- The working directory: file name to content, first binding wins. -/
abbrev FileSys := List (String × FileData)

/-- Generic string-keyed association lookup. -/
def alookup {α : Type} : List (String × α) → String → Option α
  | [], _ => none
  | (k0, v0) :: rest, k => if k0 = k then some v0 else alookup rest k

/-- File write (creates or overwrites). -/
def fsWrite : FileSys → String → FileData → FileSys
  | [], p, d => [(p, d)]
  | (p0, d0) :: rest, p, d =>
      if p0 = p then (p0, d) :: rest else (p0, d0) :: fsWrite rest p d

/-- File deletion. -/
def fsUnlink (fs : FileSys) (p : String) : FileSys :=
  fs.filter (fun e => e.1 != p)

/-- Lookup/assignment on the Val-keyed download-counter cache dict. -/
def vget : List (Val × Val) → Val → Option Val
  | [], _ => none
  | (k0, v0) :: rest, k => if k0 = k then some v0 else vget rest k

/-- Assignment for the Val-keyed cache dict. -/
def vset : List (Val × Val) → Val → Val → List (Val × Val)
  | [], k, v => [(k, v)]
  | (k0, v0) :: rest, k, v =>
      if k0 = k then (k0, v) :: rest else (k0, v0) :: vset rest k v

/-! ### Download-counter cache (PluginMasterGenerator) -/

/-- PluginMasterGenerator._load_existing_download_counts: harvest
InternalName → DownloadCount from every existing, parseable output file. -/
def load_existing_download_counts (cfg : Config) (fs : FileSys) : List (Val × Val) :=
  cfg.outputFiles.foldl
    (fun cache entry =>
      match alookup fs entry.2 with
      | some (FileData.catalog plugins) =>
          plugins.foldl
            (fun c plugin =>
              let pluginName := mgetD plugin "InternalName" Val.null
              if truthy pluginName then
                vset c pluginName (mgetD plugin "DownloadCount" (Val.int 0))
              else c)
            cache
      | _ => cache)
    []

/-- The per-manifest cached-counter fallback of
PluginMasterGenerator.generate: a zero live counter falls back to the
cache entry for the plugin's InternalName when one exists. -/
def reconcile_download_count (cache : List (Val × Val)) (m : Manifest) : Manifest :=
  let pluginName := mgetD m "InternalName" Val.null
  if pyEqZero (mgetD m "DownloadCount" (Val.int 0)) && (vget cache pluginName).isSome then
    mset m "DownloadCount" ((vget cache pluginName).getD Val.null)
  else m

/-- The cached-counter loop of PluginMasterGenerator.generate over the
full manifest list. -/
def apply_cached_counts (cache : List (Val × Val)) (ms : List Manifest) : List Manifest :=
  ms.map (reconcile_download_count cache)

/-- Claim C5: after the live download-count fetch, a manifest whose live
DownloadCount is 0 and whose InternalName has a nonzero cached count
adopts the cached value, while a manifest with a nonzero live count (such
as 5) is left untouched whatever the cache holds; the run-level loop is
exactly this per-manifest rule mapped over all manifests, with the cache
built by the run-start loader. -/
theorem claim_C5 :
    (∀ (cfg : Config) (fs : FileSys) (ms : List Manifest),
      apply_cached_counts (load_existing_download_counts cfg fs) ms
        = ms.map (reconcile_download_count (load_existing_download_counts cfg fs)))
    ∧ (∀ (cache : List (Val × Val)) (m : Manifest) (c : Int),
        mget m "DownloadCount" = some (Val.int 0) →
        vget cache (mgetD m "InternalName" Val.null) = some (Val.int c) →
        c ≠ 0 →
        mget (reconcile_download_count cache m) "DownloadCount" = some (Val.int c))
    ∧ (∀ (cache : List (Val × Val)) (m : Manifest) (n : Int),
        mget m "DownloadCount" = some (Val.int n) →
        n ≠ 0 →
        reconcile_download_count cache m = m) := by
  refine ⟨fun _ _ _ => rfl, ?_, ?_⟩
  · intro cache m c hLive hCache hc
    unfold reconcile_download_count
    simp only [mgetD] at hCache ⊢
    simp only [hLive, Option.getD_some, hCache]
    simp [pyEqZero, mget_mset_self]
  · intro cache m n hLive hn
    unfold reconcile_download_count
    simp only [mgetD, hLive, Option.getD_some]
    simp [pyEqZero, hn]

/-- Claim C5 witness: both reconciliation rules applied at concrete
manifests and a concrete cache. -/
theorem claim_C5_witness :
    (mget [("InternalName", Val.str "Foo"), ("DownloadCount", Val.int 0)] "DownloadCount"
        = some (Val.int 0)
      ∧ vget [(Val.str "Foo", Val.int 7)]
          (mgetD [("InternalName", Val.str "Foo"), ("DownloadCount", Val.int 0)]
            "InternalName" Val.null) = some (Val.int 7)
      ∧ mget (reconcile_download_count [(Val.str "Foo", Val.int 7)]
          [("InternalName", Val.str "Foo"), ("DownloadCount", Val.int 0)]) "DownloadCount"
        = some (Val.int 7))
    ∧ reconcile_download_count [(Val.str "Foo", Val.int 7)]
        [("InternalName", Val.str "Foo"), ("DownloadCount", Val.int 5)]
      = [("InternalName", Val.str "Foo"), ("DownloadCount", Val.int 5)] :=
  ⟨⟨by decide, by decide,
    claim_C5.2.1 [(Val.str "Foo", Val.int 7)]
      [("InternalName", Val.str "Foo"), ("DownloadCount", Val.int 0)] 7
      (by decide) (by decide) (by decide)⟩,
   claim_C5.2.2 [(Val.str "Foo", Val.int 7)]
      [("InternalName", Val.str "Foo"), ("DownloadCount", Val.int 5)] 5
      (by decide) (by decide)⟩

/-! ### Output writer (PluginMasterGenerator._write_plugin_master) -/

/-- grouped.setdefault(name, []).append(m). -/
def groupAppend : List (String × List Manifest) → String → Manifest → List (String × List Manifest)
  | [], k, m => [(k, [m])]
  | (k0, l) :: rest, k, m =>
      if k0 = k then (k0, l ++ [m]) :: rest else (k0, l) :: groupAppend rest k m

/-- m.get("_output_name", "default"): the destination key read from a
manifest. A non-string internal value can never equal a (string) group
key, which the sentinel below reproduces. -/
def outputNameOf (m : Manifest) : String :=
  match mget m "_output_name" with
  | some (Val.str s) => s
  | some _ => "\x00"
  | none => "default"

/-- The grouping loop of _write_plugin_master: seed one empty group per
configured destination, route every manifest (unknown destinations fall
back to "default"), dropping the _output_name key only on a final write. -/
def buildGroups (cfg : Config) (final : Bool) (ms : List Manifest) :
    List (String × List Manifest) :=
  ms.foldl
    (fun g m =>
      let n0 := outputNameOf m
      let n := if (alookup g n0).isSome then n0 else "default"
      let clean := if final then mdropKey m "_output_name" else m
      groupAppend g n clean)
    (cfg.outputFiles.map (fun e => (e.1, ([] : List Manifest))))

/-- Result of a write pass: the directory contents, the output paths
actually written, and the (path, records) write log. -/
structure WriteResult where
  fs : FileSys
  written : List String
  log : List (String × List Manifest)

/-- The per-destination write loop of _write_plugin_master: an empty
non-default group is skipped (deleting a leftover file), every other
group is serialized to its configured path. -/
def writeLoop (grouped : List (String × List Manifest)) :
    List (String × String) → FileSys → List String → List (String × List Manifest) → WriteResult
  | [], fs, cur, log => ⟨fs, cur, log⟩
  | (outName, outPath) :: rest, fs, cur, log =>
      let oms := (alookup grouped outName).getD []
      if oms.isEmpty && outName != "default" then
        writeLoop grouped rest
          (if (alookup fs outPath).isSome then fsUnlink fs outPath else fs) cur log
      else
        writeLoop grouped rest (fsWrite fs outPath (FileData.catalog oms))
          (cur ++ [outPath]) (log ++ [(outPath, oms)])

/-- PluginMasterGenerator._cleanup_stale_outputs: delete every *.json
file that is neither an output path written this pass nor the protected
plugin-sources.json. -/
def cleanup_stale_outputs (written : List String) (fs : FileSys) : FileSys :=
  fs.filter (fun e =>
    !(strTrails e.1 ".json") || written.contains e.1 || e.1 == "plugin-sources.json")

/-- PluginMasterGenerator._write_plugin_master. -/
def write_plugin_master (cfg : Config) (ms : List Manifest) (final : Bool) (fs : FileSys) :
    WriteResult :=
  let grouped := buildGroups cfg final ms
  let r := writeLoop grouped cfg.outputFiles fs [] []
  if final then ⟨cleanup_stale_outputs r.written r.fs, r.written, r.log⟩ else r

/-! ### Writer lemmas -/

theorem alookup_fsWrite_self (fs : FileSys) (p : String) (d : FileData) :
    alookup (fsWrite fs p d) p = some d := by
  induction fs with
  | nil => simp [fsWrite, alookup]
  | cons e rest ih =>
      obtain ⟨p0, d0⟩ := e
      by_cases h : p0 = p
      · simp [fsWrite, alookup, h]
      · simp [fsWrite, alookup, h, ih]

theorem alookup_fsWrite_ne (fs : FileSys) (p q : String) (d : FileData) (h : p ≠ q) :
    alookup (fsWrite fs p d) q = alookup fs q := by
  induction fs with
  | nil => simp [fsWrite, alookup, h]
  | cons e rest ih =>
      obtain ⟨p0, d0⟩ := e
      by_cases h0 : p0 = p
      · subst h0
        simp [fsWrite, alookup, h]
      · simp [fsWrite, alookup, h0, ih]

theorem alookup_filter_key_false {α : Type} (fs : List (String × α))
    (q : String × α → Bool) (p : String) (h : ∀ d, q (p, d) = false) :
    alookup (fs.filter q) p = none := by
  induction fs with
  | nil => simp [alookup]
  | cons e rest ih =>
      obtain ⟨p0, d0⟩ := e
      by_cases h0 : p0 = p
      · subst h0
        simp [List.filter, h d0, ih]
      · cases hq : q (p0, d0) with
        | false => simpa [List.filter, hq] using ih
        | true => simpa [List.filter, hq, alookup, h0] using ih

theorem alookup_filter_key_true {α : Type} (fs : List (String × α))
    (q : String × α → Bool) (p : String) (h : ∀ d, q (p, d) = true) :
    alookup (fs.filter q) p = alookup fs p := by
  induction fs with
  | nil => simp [alookup]
  | cons e rest ih =>
      obtain ⟨p0, d0⟩ := e
      by_cases h0 : p0 = p
      · subst h0
        simp [List.filter, h d0, alookup, ih]
      · cases hq : q (p0, d0) with
        | false => simpa [List.filter, hq, alookup, h0] using ih
        | true => simpa [List.filter, hq, alookup, h0] using ih

theorem alookup_fsUnlink_self (fs : FileSys) (p : String) :
    alookup (fsUnlink fs p) p = none := by
  apply alookup_filter_key_false
  intro d
  simp [fsUnlink]

theorem alookup_fsUnlink_ne (fs : FileSys) (p q : String) (h : p ≠ q) :
    alookup (fsUnlink fs p) q = alookup fs q := by
  apply alookup_filter_key_true
  intro d
  simp [fsUnlink]
  exact fun hqp => absurd hqp.symm h

/-- Paths untouched by the loop (not among the remaining output paths)
keep their content, and the loop only appends remaining output paths to
the written list. -/
theorem writeLoop_frame (grouped : List (String × List Manifest))
    (outs : List (String × String)) (fs : FileSys) (cur : List String)
    (log : List (String × List Manifest)) (p : String)
    (hp : p ∉ outs.map Prod.snd) :
    alookup (writeLoop grouped outs fs cur log).fs p = alookup fs p
    ∧ (p ∈ (writeLoop grouped outs fs cur log).written → p ∈ cur) := by
  induction outs generalizing fs cur log with
  | nil => exact ⟨rfl, fun h => h⟩
  | cons e rest ih =>
      obtain ⟨outName, outPath⟩ := e
      have hne : outPath ≠ p := by
        intro hcontra
        exact hp (by simp [hcontra])
      have hrest : p ∉ rest.map Prod.snd := by
        intro hcontra
        exact hp (by simp [hcontra])
      cases hskip :
          (((alookup grouped outName).getD []).isEmpty && (outName != "default")) with
      | true =>
          cases hex : (alookup fs outPath).isSome with
          | true =>
              have hstep : writeLoop grouped ((outName, outPath) :: rest) fs cur log
                  = writeLoop grouped rest (fsUnlink fs outPath) cur log := by
                simp [writeLoop, hskip, hex]
              have h1 := ih (fsUnlink fs outPath) cur log hrest
              rw [hstep]
              refine ⟨?_, h1.2⟩
              rw [h1.1, alookup_fsUnlink_ne fs outPath p hne]
          | false =>
              have hstep : writeLoop grouped ((outName, outPath) :: rest) fs cur log
                  = writeLoop grouped rest fs cur log := by
                simp [writeLoop, hskip, hex]
              have h1 := ih fs cur log hrest
              rw [hstep]
              exact h1
      | false =>
          have hstep : writeLoop grouped ((outName, outPath) :: rest) fs cur log
              = writeLoop grouped rest
                  (fsWrite fs outPath (FileData.catalog ((alookup grouped outName).getD [])))
                  (cur ++ [outPath]) (log ++ [(outPath, (alookup grouped outName).getD [])]) := by
            simp [writeLoop, hskip]
          have h1 := ih (fsWrite fs outPath (FileData.catalog ((alookup grouped outName).getD [])))
            (cur ++ [outPath]) (log ++ [(outPath, (alookup grouped outName).getD [])]) hrest
          rw [hstep]
          refine ⟨?_, ?_⟩
          · rw [h1.1, alookup_fsWrite_ne fs outPath p _ hne]
          · intro hmem
            have h2 := h1.2 hmem
            simp at h2
            rcases h2 with h3 | h4
            · exact h3
            · exact absurd h4.symm hne

theorem alookup_filter_of_none {α : Type} (fs : List (String × α))
    (q : String × α → Bool) (p : String) (h : alookup fs p = none) :
    alookup (fs.filter q) p = none := by
  induction fs with
  | nil => simp [alookup]
  | cons e rest ih =>
      obtain ⟨p0, d0⟩ := e
      by_cases h0 : p0 = p
      · subst h0
        simp [alookup] at h
      · simp only [alookup, if_neg h0] at h
        cases hq : q (p0, d0) with
        | false => simpa [List.filter, hq] using ih h
        | true => simpa [List.filter, hq, alookup, h0] using ih h

/-- Paths already recorded as written stay recorded. -/
theorem writeLoop_written_mono (grouped : List (String × List Manifest))
    (outs : List (String × String)) (fs : FileSys) (cur : List String)
    (log : List (String × List Manifest)) (q : String) (hq : q ∈ cur) :
    q ∈ (writeLoop grouped outs fs cur log).written := by
  induction outs generalizing fs cur log with
  | nil => exact hq
  | cons e rest ih =>
      obtain ⟨outName, outPath⟩ := e
      cases hskip :
          (((alookup grouped outName).getD []).isEmpty && (outName != "default")) with
      | true =>
          cases hex : (alookup fs outPath).isSome with
          | true =>
              have hstep : writeLoop grouped ((outName, outPath) :: rest) fs cur log
                  = writeLoop grouped rest (fsUnlink fs outPath) cur log := by
                simp [writeLoop, hskip, hex]
              rw [hstep]; exact ih _ _ _ hq
          | false =>
              have hstep : writeLoop grouped ((outName, outPath) :: rest) fs cur log
                  = writeLoop grouped rest fs cur log := by
                simp [writeLoop, hskip, hex]
              rw [hstep]; exact ih _ _ _ hq
      | false =>
          have hstep : writeLoop grouped ((outName, outPath) :: rest) fs cur log
              = writeLoop grouped rest
                  (fsWrite fs outPath (FileData.catalog ((alookup grouped outName).getD [])))
                  (cur ++ [outPath]) (log ++ [(outPath, (alookup grouped outName).getD [])]) := by
            simp [writeLoop, hskip]
          rw [hstep]
          exact ih _ _ _ (by simp [hq])

/-- Every path the loop reports as written is an initial entry or one of
the configured output paths. -/
theorem writeLoop_written_sub (grouped : List (String × List Manifest))
    (outs : List (String × String)) (fs : FileSys) (cur : List String)
    (log : List (String × List Manifest)) (q : String)
    (hq : q ∈ (writeLoop grouped outs fs cur log).written) :
    q ∈ cur ∨ q ∈ outs.map Prod.snd := by
  induction outs generalizing fs cur log with
  | nil => exact Or.inl hq
  | cons e rest ih =>
      obtain ⟨outName, outPath⟩ := e
      cases hskip :
          (((alookup grouped outName).getD []).isEmpty && (outName != "default")) with
      | true =>
          cases hex : (alookup fs outPath).isSome with
          | true =>
              have hstep : writeLoop grouped ((outName, outPath) :: rest) fs cur log
                  = writeLoop grouped rest (fsUnlink fs outPath) cur log := by
                simp [writeLoop, hskip, hex]
              rw [hstep] at hq
              rcases ih _ _ _ hq with h | h
              · exact Or.inl h
              · exact Or.inr (by simp [h])
          | false =>
              have hstep : writeLoop grouped ((outName, outPath) :: rest) fs cur log
                  = writeLoop grouped rest fs cur log := by
                simp [writeLoop, hskip, hex]
              rw [hstep] at hq
              rcases ih _ _ _ hq with h | h
              · exact Or.inl h
              · exact Or.inr (by simp [h])
      | false =>
          have hstep : writeLoop grouped ((outName, outPath) :: rest) fs cur log
              = writeLoop grouped rest
                  (fsWrite fs outPath (FileData.catalog ((alookup grouped outName).getD [])))
                  (cur ++ [outPath]) (log ++ [(outPath, (alookup grouped outName).getD [])]) := by
            simp [writeLoop, hskip]
          rw [hstep] at hq
          rcases ih _ _ _ hq with h | h
          · rcases List.mem_append.mp h with h1 | h2
            · exact Or.inl h1
            · exact Or.inr (by simpa using Or.inl (by simpa using h2))
          · exact Or.inr (by simp [h])

/-- A configured destination with an empty non-default group ends the
loop with no file at its path and its path unwritten. -/
theorem writeLoop_skip_empty (grouped : List (String × List Manifest))
    (outs : List (String × String)) (fs : FileSys) (cur : List String)
    (log : List (String × List Manifest)) (d p : String)
    (hnd : (outs.map Prod.snd).Nodup) (hmem : (d, p) ∈ outs)
    (hempty : (alookup grouped d).getD [] = []) (hd : d ≠ "default")
    (hcur : p ∉ cur) :
    alookup (writeLoop grouped outs fs cur log).fs p = none
    ∧ p ∉ (writeLoop grouped outs fs cur log).written := by
  induction outs generalizing fs cur log with
  | nil => simp at hmem
  | cons e rest ih =>
      obtain ⟨outName, outPath⟩ := e
      rcases List.mem_cons.mp hmem with hhead | htail
      · obtain ⟨rfl, rfl⟩ := Prod.mk.inj hhead
        have hskip :
            (((alookup grouped d).getD []).isEmpty && (d != "default")) = true := by
          simp [hempty, hd]
        have hrestp : p ∉ rest.map Prod.snd := by
          have := hnd
          simp only [List.map_cons, List.nodup_cons] at this
          exact this.1
        cases hex : (alookup fs p).isSome with
        | true =>
            have hstep : writeLoop grouped ((d, p) :: rest) fs cur log
                = writeLoop grouped rest (fsUnlink fs p) cur log := by
              simp [writeLoop, hskip, hex]
            rw [hstep]
            have hframe := writeLoop_frame grouped rest (fsUnlink fs p) cur log p hrestp
            refine ⟨?_, ?_⟩
            · rw [hframe.1, alookup_fsUnlink_self]
            · intro hw
              exact hcur (hframe.2 hw)
        | false =>
            have hstep : writeLoop grouped ((d, p) :: rest) fs cur log
                = writeLoop grouped rest fs cur log := by
              simp [writeLoop, hskip, hex]
            rw [hstep]
            have hframe := writeLoop_frame grouped rest fs cur log p hrestp
            refine ⟨?_, ?_⟩
            · rw [hframe.1]
              exact Option.not_isSome_iff_eq_none.mp (by simp [hex])
            · intro hw
              exact hcur (hframe.2 hw)
      · have hpin : p ∈ rest.map Prod.snd := by
          exact List.mem_map.mpr ⟨(d, p), htail, rfl⟩
        have hne : outPath ≠ p := by
          intro hc
          subst hc
          simp only [List.map_cons, List.nodup_cons] at hnd
          exact hnd.1 hpin
        have hndr : (rest.map Prod.snd).Nodup := by
          simp only [List.map_cons, List.nodup_cons] at hnd
          exact hnd.2
        cases hskip :
            (((alookup grouped outName).getD []).isEmpty && (outName != "default")) with
        | true =>
            cases hex : (alookup fs outPath).isSome with
            | true =>
                have hstep : writeLoop grouped ((outName, outPath) :: rest) fs cur log
                    = writeLoop grouped rest (fsUnlink fs outPath) cur log := by
                  simp [writeLoop, hskip, hex]
                rw [hstep]
                exact ih _ _ _ hndr htail hcur
            | false =>
                have hstep : writeLoop grouped ((outName, outPath) :: rest) fs cur log
                    = writeLoop grouped rest fs cur log := by
                  simp [writeLoop, hskip, hex]
                rw [hstep]
                exact ih _ _ _ hndr htail hcur
        | false =>
            have hstep : writeLoop grouped ((outName, outPath) :: rest) fs cur log
                = writeLoop grouped rest
                    (fsWrite fs outPath (FileData.catalog ((alookup grouped outName).getD [])))
                    (cur ++ [outPath]) (log ++ [(outPath, (alookup grouped outName).getD [])]) := by
              simp [writeLoop, hskip]
            rw [hstep]
            refine ih _ _ _ hndr htail ?_
            intro hc
            rcases List.mem_append.mp hc with h1 | h2
            · exact hcur h1
            · have hpe : p = outPath := by simpa using h2
              exact hne hpe.symm

/-- A configured destination whose group is written ends the loop with
its serialized group at its path, and its path recorded as written. -/
theorem writeLoop_writes (grouped : List (String × List Manifest))
    (outs : List (String × String)) (fs : FileSys) (cur : List String)
    (log : List (String × List Manifest)) (d p : String)
    (hnd : (outs.map Prod.snd).Nodup) (hmem : (d, p) ∈ outs)
    (hwrite : (((alookup grouped d).getD []).isEmpty && (d != "default")) = false) :
    alookup (writeLoop grouped outs fs cur log).fs p
      = some (FileData.catalog ((alookup grouped d).getD []))
    ∧ p ∈ (writeLoop grouped outs fs cur log).written := by
  induction outs generalizing fs cur log with
  | nil => simp at hmem
  | cons e rest ih =>
      obtain ⟨outName, outPath⟩ := e
      rcases List.mem_cons.mp hmem with hhead | htail
      · obtain ⟨rfl, rfl⟩ := Prod.mk.inj hhead
        have hrestp : p ∉ rest.map Prod.snd := by
          simp only [List.map_cons, List.nodup_cons] at hnd
          exact hnd.1
        have hstep : writeLoop grouped ((d, p) :: rest) fs cur log
            = writeLoop grouped rest
                (fsWrite fs p (FileData.catalog ((alookup grouped d).getD [])))
                (cur ++ [p]) (log ++ [(p, (alookup grouped d).getD [])]) := by
          simp only [writeLoop, hwrite]
          simp
        rw [hstep]
        have hframe := writeLoop_frame grouped rest
          (fsWrite fs p (FileData.catalog ((alookup grouped d).getD [])))
          (cur ++ [p]) (log ++ [(p, (alookup grouped d).getD [])]) p hrestp
        refine ⟨?_, ?_⟩
        · rw [hframe.1, alookup_fsWrite_self]
        · exact writeLoop_written_mono _ _ _ _ _ p (by simp)
      · have hpin : p ∈ rest.map Prod.snd :=
          List.mem_map.mpr ⟨(d, p), htail, rfl⟩
        have hne : outPath ≠ p := by
          intro hc
          subst hc
          simp only [List.map_cons, List.nodup_cons] at hnd
          exact hnd.1 hpin
        have hndr : (rest.map Prod.snd).Nodup := by
          simp only [List.map_cons, List.nodup_cons] at hnd
          exact hnd.2
        cases hskip :
            (((alookup grouped outName).getD []).isEmpty && (outName != "default")) with
        | true =>
            cases hex : (alookup fs outPath).isSome with
            | true =>
                have hstep : writeLoop grouped ((outName, outPath) :: rest) fs cur log
                    = writeLoop grouped rest (fsUnlink fs outPath) cur log := by
                  simp [writeLoop, hskip, hex]
                rw [hstep]
                exact ih _ _ _ hndr htail
            | false =>
                have hstep : writeLoop grouped ((outName, outPath) :: rest) fs cur log
                    = writeLoop grouped rest fs cur log := by
                  simp [writeLoop, hskip, hex]
                rw [hstep]
                exact ih _ _ _ hndr htail
        | false =>
            have hstep : writeLoop grouped ((outName, outPath) :: rest) fs cur log
                = writeLoop grouped rest
                    (fsWrite fs outPath (FileData.catalog ((alookup grouped outName).getD [])))
                    (cur ++ [outPath]) (log ++ [(outPath, (alookup grouped outName).getD [])]) := by
              simp [writeLoop, hskip]
            rw [hstep]
            exact ih _ _ _ hndr htail

/-- Claim C6 (amended): a configured destination other than "default"
whose group of resolved manifests is empty gets no catalog file in the
final write, and a pre-existing file at its path is deleted.  The
destination named "default" is exempted by the guard in
_write_plugin_master: an empty catalog file is written for it. -/
theorem claim_C6 :
    ∀ (cfg : Config) (ms : List Manifest) (fs : FileSys) (d p : String),
      (cfg.outputFiles.map Prod.snd).Nodup →
      (d, p) ∈ cfg.outputFiles →
      (alookup (buildGroups cfg true ms) d).getD [] = [] →
      d ≠ "default" →
      alookup (write_plugin_master cfg ms true fs).fs p = none
      ∧ p ∉ (write_plugin_master cfg ms true fs).written := by
  intro cfg ms fs d p hnd hmem hempty hd
  have h := writeLoop_skip_empty (buildGroups cfg true ms) cfg.outputFiles fs [] [] d p
    hnd hmem hempty hd (by simp)
  have hw : write_plugin_master cfg ms true fs =
      ⟨cleanup_stale_outputs
          (writeLoop (buildGroups cfg true ms) cfg.outputFiles fs [] []).written
          (writeLoop (buildGroups cfg true ms) cfg.outputFiles fs [] []).fs,
        (writeLoop (buildGroups cfg true ms) cfg.outputFiles fs [] []).written,
        (writeLoop (buildGroups cfg true ms) cfg.outputFiles fs [] []).log⟩ := rfl
  rw [hw]
  exact ⟨alookup_filter_of_none _ _ _ h.1, h.2⟩

/-- Claim C6 counterexample: a configured "default" destination with an
empty manifest group still gets its catalog file written (holding the
empty list), and the pre-existing file is overwritten rather than
deleted — contradicting the claim's "including the destination named
default". -/
theorem claim_C6_cx :
    alookup (write_plugin_master
        (Config.mk "main" [("default", "pluginmaster.json")] [] "" "" "" [] [] "" 13)
        [] true [("pluginmaster.json", FileData.catalog [[("Name", Val.str "Old")]])]).fs
      "pluginmaster.json" = some (FileData.catalog [])
    ∧ "pluginmaster.json" ∈ (write_plugin_master
        (Config.mk "main" [("default", "pluginmaster.json")] [] "" "" "" [] [] "" 13)
        [] true [("pluginmaster.json", FileData.catalog [[("Name", Val.str "Old")]])]).written := by
  refine ⟨by decide, by decide⟩

/-- Claim C6 witness: the amended statement at a concrete two-destination
configuration where the non-default destination has an empty group and a
leftover file. -/
theorem claim_C6_witness :
    ((Config.mk "main" [("default", "pluginmaster.json"), ("x", "x.json")] [] "" "" "" [] [] "" 13).outputFiles.map Prod.snd).Nodup
    ∧ ("x" : String) ≠ "default"
    ∧ alookup (write_plugin_master
        (Config.mk "main" [("default", "pluginmaster.json"), ("x", "x.json")] [] "" "" "" [] [] "" 13)
        [] true [("x.json", FileData.other "old")]).fs "x.json" = none
    ∧ "x.json" ∉ (write_plugin_master
        (Config.mk "main" [("default", "pluginmaster.json"), ("x", "x.json")] [] "" "" "" [] [] "" 13)
        [] true [("x.json", FileData.other "old")]).written :=
  ⟨by decide, by decide,
    (claim_C6 (Config.mk "main" [("default", "pluginmaster.json"), ("x", "x.json")] [] "" "" "" [] [] "" 13)
      [] [("x.json", FileData.other "old")] "x" "x.json"
      (by decide) (by decide) (by decide) (by decide)).1,
    (claim_C6 (Config.mk "main" [("default", "pluginmaster.json"), ("x", "x.json")] [] "" "" "" [] [] "" 13)
      [] [("x.json", FileData.other "old")] "x" "x.json"
      (by decide) (by decide) (by decide) (by decide)).2⟩

/-- Claim C10: the cleanup after the final write deletes every *.json
file that is not among the output paths actually written in that pass
and is not plugin-sources.json, regardless of its content. -/
theorem claim_C10 :
    ∀ (cfg : Config) (ms : List Manifest) (fs : FileSys) (p : String),
      strTrails p ".json" = true →
      p ∉ (write_plugin_master cfg ms true fs).written →
      p ≠ "plugin-sources.json" →
      alookup (write_plugin_master cfg ms true fs).fs p = none := by
  intro cfg ms fs p hjson hnotin hpsj
  have hw : write_plugin_master cfg ms true fs =
      ⟨cleanup_stale_outputs
          (writeLoop (buildGroups cfg true ms) cfg.outputFiles fs [] []).written
          (writeLoop (buildGroups cfg true ms) cfg.outputFiles fs [] []).fs,
        (writeLoop (buildGroups cfg true ms) cfg.outputFiles fs [] []).written,
        (writeLoop (buildGroups cfg true ms) cfg.outputFiles fs [] []).log⟩ := rfl
  have hnotin2 :
      p ∉ (writeLoop (buildGroups cfg true ms) cfg.outputFiles fs [] []).written := hnotin
  rw [hw]
  apply alookup_filter_key_false
  intro dta
  simp [hjson, hpsj]
  exact hnotin2

/-- Claim C10 witness: a stale non-catalog JSON file is removed by a
final write at a concrete configuration. -/
theorem claim_C10_witness :
    strTrails "stale.json" ".json" = true
    ∧ "stale.json" ∉ (write_plugin_master
        (Config.mk "main" [("default", "pluginmaster.json")] [] "" "" "" [] [] "" 13)
        [] true [("stale.json", FileData.other "not a catalog")]).written
    ∧ alookup (write_plugin_master
        (Config.mk "main" [("default", "pluginmaster.json")] [] "" "" "" [] [] "" 13)
        [] true [("stale.json", FileData.other "not a catalog")]).fs "stale.json" = none :=
  ⟨by decide, by decide,
    claim_C10 (Config.mk "main" [("default", "pluginmaster.json")] [] "" "" "" [] [] "" 13)
      [] [("stale.json", FileData.other "not a catalog")] "stale.json"
      (by decide) (by decide) (by decide)⟩

theorem alookup_mem {α : Type} (g : List (String × α)) (k : String) (v : α)
    (h : alookup g k = some v) : (k, v) ∈ g := by
  induction g with
  | nil => simp [alookup] at h
  | cons e rest ih =>
      obtain ⟨k0, v0⟩ := e
      by_cases h0 : k0 = k
      · subst h0
        simp [alookup] at h
        simp [h]
      · simp only [alookup, if_neg h0] at h
        exact List.mem_cons_of_mem _ (ih h)

/-- Every record inside any group after one setdefault-append step comes
from the previous groups or is the appended manifest. -/
theorem groupAppend_records (g : List (String × List Manifest)) (k : String) (m : Manifest)
    (n : String) (l : List Manifest) (h : (n, l) ∈ groupAppend g k m)
    (r : Manifest) (hr : r ∈ l) :
    (∃ n0 l0, (n0, l0) ∈ g ∧ r ∈ l0) ∨ r = m := by
  induction g with
  | nil =>
      simp [groupAppend] at h
      obtain ⟨hn, hl⟩ := h
      subst hl
      exact Or.inr (by simpa using hr)
  | cons e rest ih =>
      obtain ⟨k0, l0⟩ := e
      by_cases h0 : k0 = k
      · subst h0
        simp only [groupAppend, if_pos rfl] at h
        rcases List.mem_cons.mp h with hhead | htail
        · obtain ⟨hn, hl⟩ := Prod.mk.inj hhead
          rw [hl] at hr
          rcases List.mem_append.mp hr with h1 | h2
          · exact Or.inl ⟨k0, l0, List.mem_cons_self _ _, h1⟩
          · exact Or.inr (by simpa using h2)
        · exact Or.inl ⟨n, l, List.mem_cons_of_mem _ htail, hr⟩
      · simp only [groupAppend, if_neg h0] at h
        rcases List.mem_cons.mp h with hhead | htail
        · obtain ⟨rfl, rfl⟩ := Prod.mk.inj hhead
          exact Or.inl ⟨n, l, List.mem_cons_self _ _, hr⟩
        · rcases ih htail with ⟨n1, l1, hmem, hrl⟩ | heq
          · exact Or.inl ⟨n1, l1, List.mem_cons_of_mem _ hmem, hrl⟩
          · exact Or.inr heq


/-- Fold-level generalization: any property holding of the cleaned form
of every routed manifest and of every record already grouped holds of
every record in the final grouping. -/
theorem groupFoldRecords (final : Bool) (P : Manifest → Prop) :
    ∀ (ms : List Manifest) (g0 : List (String × List Manifest)),
      (∀ n l, (n, l) ∈ g0 → ∀ r ∈ l, P r) →
      (∀ m ∈ ms, P (if final then mdropKey m "_output_name" else m)) →
      ∀ n l, (n, l) ∈ ms.foldl
        (fun g m =>
          let n0 := outputNameOf m
          let n1 := if (alookup g n0).isSome then n0 else "default"
          let clean := if final then mdropKey m "_output_name" else m
          groupAppend g n1 clean) g0 →
      ∀ r ∈ l, P r := by
  intro ms
  induction ms with
  | nil =>
      intro g0 hg0 hms n l hmem r hr
      exact hg0 n l hmem r hr
  | cons m rest ih =>
      intro g0 hg0 hms n l hmem r hr
      simp only [List.foldl_cons] at hmem
      refine ih _ ?_ (fun m0 hm0 => hms m0 (List.mem_cons_of_mem _ hm0)) n l hmem r hr
      intro n1 l1 h1 r1 hr1
      rcases groupAppend_records g0 _ _ n1 l1 h1 r1 hr1 with ⟨n2, l2, hmem2, hrl2⟩ | heq
      · exact hg0 n2 l2 hmem2 r1 hrl2
      · rw [heq]
        exact hms m (List.mem_cons_self _ _)

/-- Every record inside any group built by the grouping loop is the
cleaned form of one of the routed manifests. -/
theorem buildGroups_records (cfg : Config) (final : Bool) (ms : List Manifest)
    (n : String) (l : List Manifest) (r : Manifest)
    (hg : (n, l) ∈ buildGroups cfg final ms) (hr : r ∈ l) :
    ∃ m ∈ ms, r = (if final then mdropKey m "_output_name" else m) := by
  have hg2 : (n, l) ∈ ms.foldl
      (fun g m =>
        let n0 := outputNameOf m
        let n1 := if (alookup g n0).isSome then n0 else "default"
        let clean := if final then mdropKey m "_output_name" else m
        groupAppend g n1 clean)
      (cfg.outputFiles.map (fun e => (e.1, ([] : List Manifest)))) := hg
  refine groupFoldRecords final
    (fun r0 => ∃ m ∈ ms, r0 = (if final then mdropKey m "_output_name" else m))
    ms _ ?_ (fun m hm => ⟨m, hm, rfl⟩) n l hg2 r hr
  intro n0 l0 hmem r0 hr0
  exfalso
  obtain ⟨e, he, heq⟩ := List.mem_map.mp hmem
  have hl0 : ([] : List Manifest) = l0 := congrArg Prod.snd heq
  rw [← hl0] at hr0
  simp at hr0

/-- Every entry the loop appends to the write log carries one of the
grouped record lists. -/
theorem writeLoop_log_mem (grouped : List (String × List Manifest))
    (outs : List (String × String)) (fs : FileSys) (cur : List String)
    (log : List (String × List Manifest)) (e : String × List Manifest)
    (he : e ∈ (writeLoop grouped outs fs cur log).log) :
    e ∈ log ∨ ∃ n, (n, e.1) ∈ outs ∧ e.2 = (alookup grouped n).getD [] := by
  induction outs generalizing fs cur log with
  | nil => exact Or.inl he
  | cons p rest ih =>
      obtain ⟨outName, outPath⟩ := p
      cases hskip :
          (((alookup grouped outName).getD []).isEmpty && (outName != "default")) with
      | true =>
          cases hex : (alookup fs outPath).isSome with
          | true =>
              have hstep : writeLoop grouped ((outName, outPath) :: rest) fs cur log
                  = writeLoop grouped rest (fsUnlink fs outPath) cur log := by
                simp [writeLoop, hskip, hex]
              rw [hstep] at he
              rcases ih _ _ _ he with h | ⟨n1, hmem, hval⟩
              · exact Or.inl h
              · exact Or.inr ⟨n1, List.mem_cons_of_mem _ hmem, hval⟩
          | false =>
              have hstep : writeLoop grouped ((outName, outPath) :: rest) fs cur log
                  = writeLoop grouped rest fs cur log := by
                simp [writeLoop, hskip, hex]
              rw [hstep] at he
              rcases ih _ _ _ he with h | ⟨n1, hmem, hval⟩
              · exact Or.inl h
              · exact Or.inr ⟨n1, List.mem_cons_of_mem _ hmem, hval⟩
      | false =>
          have hstep : writeLoop grouped ((outName, outPath) :: rest) fs cur log
              = writeLoop grouped rest
                  (fsWrite fs outPath (FileData.catalog ((alookup grouped outName).getD [])))
                  (cur ++ [outPath]) (log ++ [(outPath, (alookup grouped outName).getD [])]) := by
            simp [writeLoop, hskip]
          rw [hstep] at he
          rcases ih _ _ _ he with h | ⟨n1, hmem, hval⟩
          · rcases List.mem_append.mp h with h1 | h2
            · exact Or.inl h1
            · have he2 : e = (outPath, (alookup grouped outName).getD []) := by simpa using h2
              subst he2
              exact Or.inr ⟨outName, List.mem_cons_self _ _, rfl⟩
          · exact Or.inr ⟨n1, List.mem_cons_of_mem _ hmem, hval⟩

theorem mget_mdropKey_self (m : Manifest) (k : String) :
    mget (mdropKey m k) k = none := by
  induction m with
  | nil => rfl
  | cons kv rest ih =>
      obtain ⟨k0, v0⟩ := kv
      by_cases h0 : k0 = k
      · have hstep : mdropKey ((k0, v0) :: rest) k = mdropKey rest k := by
          simp [mdropKey, List.filter_cons, h0]
        rw [hstep]
        exact ih
      · have hstep : mdropKey ((k0, v0) :: rest) k = (k0, v0) :: mdropKey rest k := by
          simp [mdropKey, List.filter_cons, h0]
        rw [hstep]
        simpa [mget, h0] using ih

/-- Claim C7: after the final write pass every remaining *.json file is
plugin-sources.json or a path written for a configured destination;
stale catalog files (such as one for an unconfigured destination C) are
removed while configured destinations with written groups (A, B) keep
their files; and the non-final pass triggers neither cleanup (files off
the configured paths are untouched) nor field-stripping (its log writes
the original records, while the final pass logs records with
_output_name removed). -/
theorem claim_C7 :
    (∀ (cfg : Config) (ms : List Manifest) (fs : FileSys) (q : String),
      q ∈ (write_plugin_master cfg ms true fs).written →
      q ∈ cfg.outputFiles.map Prod.snd)
    ∧ (∀ (cfg : Config) (ms : List Manifest) (fs : FileSys) (p : String),
      strTrails p ".json" = true →
      p ∉ cfg.outputFiles.map Prod.snd →
      p ≠ "plugin-sources.json" →
      alookup (write_plugin_master cfg ms true fs).fs p = none)
    ∧ (∀ (cfg : Config) (ms : List Manifest) (fs : FileSys) (d p : String),
      (cfg.outputFiles.map Prod.snd).Nodup →
      (d, p) ∈ cfg.outputFiles →
      (((alookup (buildGroups cfg true ms) d).getD []).isEmpty && (d != "default")) = false →
      alookup (write_plugin_master cfg ms true fs).fs p
        = some (FileData.catalog ((alookup (buildGroups cfg true ms) d).getD []))
      ∧ p ∈ (write_plugin_master cfg ms true fs).written)
    ∧ (∀ (cfg : Config) (ms : List Manifest) (fs : FileSys) (p : String),
      p ∉ cfg.outputFiles.map Prod.snd →
      alookup (write_plugin_master cfg ms false fs).fs p = alookup fs p)
    ∧ (∀ (cfg : Config) (ms : List Manifest) (fs : FileSys) (e : String × List Manifest),
      e ∈ (write_plugin_master cfg ms false fs).log → ∀ r ∈ e.2, r ∈ ms)
    ∧ (∀ (cfg : Config) (ms : List Manifest) (fs : FileSys) (e : String × List Manifest),
      e ∈ (write_plugin_master cfg ms true fs).log →
      ∀ r ∈ e.2, hasKey r "_output_name" = false) := by
  have hwr : ∀ (cfg : Config) (ms : List Manifest) (fs : FileSys) (q : String),
      q ∈ (write_plugin_master cfg ms true fs).written →
      q ∈ cfg.outputFiles.map Prod.snd := by
    intro cfg ms fs q hq
    have hq2 : q ∈ (writeLoop (buildGroups cfg true ms) cfg.outputFiles fs [] []).written := hq
    rcases writeLoop_written_sub _ _ _ _ _ q hq2 with h | h
    · simp at h
    · exact h
  refine ⟨hwr, ?_, ?_, ?_, ?_, ?_⟩
  · intro cfg ms fs p hjson hpath hpsj
    have hnw : p ∉ (writeLoop (buildGroups cfg true ms) cfg.outputFiles fs [] []).written := by
      intro hc
      exact hpath (hwr cfg ms fs p hc)
    show alookup (cleanup_stale_outputs
      (writeLoop (buildGroups cfg true ms) cfg.outputFiles fs [] []).written
      (writeLoop (buildGroups cfg true ms) cfg.outputFiles fs [] []).fs) p = none
    apply alookup_filter_key_false
    intro dta
    simp [hjson, hpsj]
    exact hnw
  · intro cfg ms fs d p hnd hmem hwrite
    have h := writeLoop_writes (buildGroups cfg true ms) cfg.outputFiles fs [] [] d p
      hnd hmem hwrite
    have hcont :
        (writeLoop (buildGroups cfg true ms) cfg.outputFiles fs [] []).written.contains p
          = true := List.elem_eq_true_of_mem h.2
    constructor
    · show alookup (cleanup_stale_outputs
        (writeLoop (buildGroups cfg true ms) cfg.outputFiles fs [] []).written
        (writeLoop (buildGroups cfg true ms) cfg.outputFiles fs [] []).fs) p
        = some (FileData.catalog ((alookup (buildGroups cfg true ms) d).getD []))
      unfold cleanup_stale_outputs
      rw [alookup_filter_key_true _ _ p (fun dta => by simp [h.2])]
      exact h.1
    · exact h.2
  · intro cfg ms fs p hpath
    have hw : write_plugin_master cfg ms false fs
        = writeLoop (buildGroups cfg false ms) cfg.outputFiles fs [] [] := rfl
    rw [hw]
    exact (writeLoop_frame (buildGroups cfg false ms) cfg.outputFiles fs [] [] p hpath).1
  · intro cfg ms fs e he r hr
    have he2 : e ∈ (writeLoop (buildGroups cfg false ms) cfg.outputFiles fs [] []).log := he
    rcases writeLoop_log_mem _ _ _ _ _ e he2 with h | ⟨n, hmem, hval⟩
    · simp at h
    · rw [hval] at hr
      cases halk : alookup (buildGroups cfg false ms) n with
      | none => rw [halk] at hr; simp at hr
      | some l =>
          rw [halk] at hr
          simp only [Option.getD_some] at hr
          obtain ⟨m, hmms, hreq⟩ :=
            buildGroups_records cfg false ms n l r (alookup_mem _ n l halk) hr
          rw [if_neg Bool.false_ne_true] at hreq
          rw [hreq]
          exact hmms
  · intro cfg ms fs e he r hr
    have he2 : e ∈ (writeLoop (buildGroups cfg true ms) cfg.outputFiles fs [] []).log := he
    rcases writeLoop_log_mem _ _ _ _ _ e he2 with h | ⟨n, hmem, hval⟩
    · simp at h
    · rw [hval] at hr
      cases halk : alookup (buildGroups cfg true ms) n with
      | none => rw [halk] at hr; simp at hr
      | some l =>
          rw [halk] at hr
          simp only [Option.getD_some] at hr
          obtain ⟨m, hmms, hreq⟩ :=
            buildGroups_records cfg true ms n l r (alookup_mem _ n l halk) hr
          simp only [if_pos rfl] at hreq
          rw [hreq]
          simp [hasKey, mget_mdropKey_self]

/-- Claim C7 witness: at a concrete two-destination configuration with a
stale catalog file c.json, the final-pass conclusions applied with every
hypothesis discharged. -/
theorem claim_C7_witness :
    strTrails "c.json" ".json" = true
    ∧ "c.json" ∉ ((Config.mk "main" [("A", "a.json"), ("B", "b.json")] [] "" "" "" [] [] "" 13).outputFiles.map Prod.snd)
    ∧ alookup (write_plugin_master
        (Config.mk "main" [("A", "a.json"), ("B", "b.json")] [] "" "" "" [] [] "" 13)
        [[("Name", Val.str "m1"), ("_output_name", Val.str "A")],
         [("Name", Val.str "m2"), ("_output_name", Val.str "B")]]
        true [("c.json", FileData.catalog [[("Name", Val.str "old")]])]).fs "c.json" = none
    ∧ alookup (write_plugin_master
        (Config.mk "main" [("A", "a.json"), ("B", "b.json")] [] "" "" "" [] [] "" 13)
        [[("Name", Val.str "m1"), ("_output_name", Val.str "A")],
         [("Name", Val.str "m2"), ("_output_name", Val.str "B")]]
        true [("c.json", FileData.catalog [[("Name", Val.str "old")]])]).fs "a.json"
      = some (FileData.catalog ((alookup (buildGroups
          (Config.mk "main" [("A", "a.json"), ("B", "b.json")] [] "" "" "" [] [] "" 13) true
          [[("Name", Val.str "m1"), ("_output_name", Val.str "A")],
           [("Name", Val.str "m2"), ("_output_name", Val.str "B")]]) "A").getD []))
    ∧ "a.json" ∈ (write_plugin_master
        (Config.mk "main" [("A", "a.json"), ("B", "b.json")] [] "" "" "" [] [] "" 13)
        [[("Name", Val.str "m1"), ("_output_name", Val.str "A")],
         [("Name", Val.str "m2"), ("_output_name", Val.str "B")]]
        true [("c.json", FileData.catalog [[("Name", Val.str "old")]])]).written :=
  ⟨by decide, by decide,
   claim_C7.2.1
     (Config.mk "main" [("A", "a.json"), ("B", "b.json")] [] "" "" "" [] [] "" 13)
     [[("Name", Val.str "m1"), ("_output_name", Val.str "A")],
      [("Name", Val.str "m2"), ("_output_name", Val.str "B")]]
     [("c.json", FileData.catalog [[("Name", Val.str "old")]])] "c.json"
     (by decide) (by decide) (by decide),
   (claim_C7.2.2.1
     (Config.mk "main" [("A", "a.json"), ("B", "b.json")] [] "" "" "" [] [] "" 13)
     [[("Name", Val.str "m1"), ("_output_name", Val.str "A")],
      [("Name", Val.str "m2"), ("_output_name", Val.str "B")]]
     [("c.json", FileData.catalog [[("Name", Val.str "old")]])] "A" "a.json"
     (by decide) (by decide) (by decide)).1,
   (claim_C7.2.2.1
     (Config.mk "main" [("A", "a.json"), ("B", "b.json")] [] "" "" "" [] [] "" 13)
     [[("Name", Val.str "m1"), ("_output_name", Val.str "A")],
      [("Name", Val.str "m2"), ("_output_name", Val.str "B")]]
     [("c.json", FileData.catalog [[("Name", Val.str "old")]])] "A" "a.json"
     (by decide) (by decide) (by decide)).2⟩

/-! ### Trimming and the final write pass of generate -/

/-- PluginProcessor.trim_manifest: keep only required keys, in the
configured key order. -/
def trim_manifest (cfg : Config) (m : Manifest) : Manifest :=
  cfg.requiredManifestKeys.filterMap (fun k => (mget m k).map (fun v => (k, v)))

/-- The required_manifest_keys list of Config.load_default. -/
def defaultRequiredManifestKeys : List String :=
  ["Author", "Name", "Punchline", "Description", "Tags",
   "InternalName", "RepoUrl", "Changelog", "AssemblyVersion",
   "ApplicableVersion", "DalamudApiLevel", "TestingAssemblyVersion",
   "TestingDalamudApiLevel", "IconUrl", "ImageUrls", "LastUpdate",
   "DownloadCount", "DownloadLinkInstall", "DownloadLinkUpdate", "DownloadLinkTesting"]

/-- The internal routing/provenance fields that must never be persisted. -/
def internalFields : List String :=
  ["_output_name", "_repository_source", "_repository_asset_url",
   "_repository_token_name", "_testing_download_url"]

/-- The routing-preservation dict of PluginMasterGenerator.generate:
InternalName value to _output_name value, last binding wins. -/
def routingOf (ms : List Manifest) : List (Val × Val) :=
  ms.foldl
    (fun r m =>
      vset r (mgetD m "InternalName" Val.null) (mgetD m "_output_name" (Val.str "default")))
    []

/-- Re-attaching the remembered routing to a trimmed manifest. -/
def reattach_routing (routing : List (Val × Val)) (m : Manifest) : Manifest :=
  mset m "_output_name"
    ((vget routing (mgetD m "InternalName" Val.null)).getD (Val.str "default"))

/-- The tail of PluginMasterGenerator.generate: remember output routing,
trim every manifest, re-attach the routing, then run the final write. -/
def finalize_and_write (cfg : Config) (ms : List Manifest) (fs : FileSys) : WriteResult :=
  write_plugin_master cfg
    ((ms.map (trim_manifest cfg)).map (reattach_routing (routingOf ms))) true fs

theorem mget_trim (cfg : Config) (m : Manifest) (k : String) :
    mget (trim_manifest cfg m) k
      = if k ∈ cfg.requiredManifestKeys then mget m k else none := by
  show mget (cfg.requiredManifestKeys.filterMap (fun kk => (mget m kk).map (fun v => (kk, v)))) k
      = if k ∈ cfg.requiredManifestKeys then mget m k else none
  induction cfg.requiredManifestKeys with
  | nil => simp [mget]
  | cons k0 rest ih =>
      cases hk0 : mget m k0 with
      | none =>
          simp only [List.filterMap_cons, hk0, Option.map_none']
          rw [ih]
          by_cases hkk : k = k0
          · subst hkk
            by_cases hkr : k ∈ rest
            · simp [hkr, hk0]
            · simp [hkr, hk0]
          · simp [List.mem_cons, hkk]
      | some v =>
          simp only [List.filterMap_cons, hk0, Option.map_some']
          by_cases hkk : k0 = k
          · subst hkk
            simp [mget, hk0]
          · simp only [mget, if_neg hkk]
            rw [ih]
            have hkk2 : ¬k = k0 := fun hc => hkk hc.symm
            by_cases hkr : k ∈ rest
            · simp [List.mem_cons, hkr, hkk2]
            · simp [List.mem_cons, hkr, hkk2]

theorem mget_mdropKey_ne (m : Manifest) (k k2 : String) (h : k2 ≠ k) :
    mget (mdropKey m k) k2 = mget m k2 := by
  induction m with
  | nil => rfl
  | cons kv rest ih =>
      obtain ⟨k0, v0⟩ := kv
      by_cases h0 : k0 = k
      · have hstep : mdropKey ((k0, v0) :: rest) k = mdropKey rest k := by
          simp [mdropKey, List.filter_cons, h0]
        rw [hstep, ih]
        have hne : k0 ≠ k2 := by
          rw [h0]
          exact fun hc => h hc.symm
        simp [mget, hne]
      · have hstep : mdropKey ((k0, v0) :: rest) k = (k0, v0) :: mdropKey rest k := by
          simp [mdropKey, List.filter_cons, h0]
        rw [hstep]
        by_cases h2 : k0 = k2
        · simp [mget, h2]
        · simp [mget, h2, ih]

/-- Claim C8: in the final write pass every record written to a catalog
carries only keys from the configured required-field set, with present
keys kept verbatim and absent keys omitted (no placeholders), and no
internal routing/provenance field ever appears; the five internal fields
are indeed outside the default required-field set. -/
theorem claim_C8 :
    (∀ (cfg : Config) (m : Manifest) (k : String),
      mget (trim_manifest cfg m) k
        = if k ∈ cfg.requiredManifestKeys then mget m k else none)
    ∧ (∀ (cfg : Config) (ms : List Manifest) (fs : FileSys),
      (∀ f ∈ internalFields, f ∉ cfg.requiredManifestKeys) →
      ∀ e ∈ (finalize_and_write cfg ms fs).log, ∀ r ∈ e.2, ∀ k,
        hasKey r k = true → k ∈ cfg.requiredManifestKeys ∧ k ∉ internalFields)
    ∧ (∀ f ∈ internalFields, f ∉ defaultRequiredManifestKeys) := by
  refine ⟨mget_trim, ?_, by decide⟩
  intro cfg ms fs hint e he r hr k hk
  have he2 : e ∈ (writeLoop
      (buildGroups cfg true ((ms.map (trim_manifest cfg)).map (reattach_routing (routingOf ms))))
      cfg.outputFiles fs [] []).log := he
  rcases writeLoop_log_mem _ _ _ _ _ e he2 with h | ⟨n, hmem, hval⟩
  · simp at h
  · rw [hval] at hr
    cases halk : alookup
        (buildGroups cfg true
          ((ms.map (trim_manifest cfg)).map (reattach_routing (routingOf ms)))) n with
    | none => rw [halk] at hr; simp at hr
    | some l =>
        rw [halk] at hr
        simp only [Option.getD_some] at hr
        obtain ⟨m2, hm2, hreq⟩ :=
          buildGroups_records _ true _ n l r (alookup_mem _ n l halk) hr
        rw [if_pos rfl] at hreq
        obtain ⟨m1, hm1, hm2eq⟩ := List.mem_map.mp hm2
        obtain ⟨m0, hm0, hm1eq⟩ := List.mem_map.mp hm1
        by_cases hko : k = "_output_name"
        · exfalso
          rw [hreq, hko] at hk
          simp [hasKey, mget_mdropKey_self] at hk
        · have hmr : mget r k = mget (trim_manifest cfg m0) k := by
            rw [hreq, mget_mdropKey_ne _ _ _ hko, ← hm2eq]
            show mget (reattach_routing (routingOf ms) m1) k = mget (trim_manifest cfg m0) k
            unfold reattach_routing
            rw [mget_mset_ne _ _ _ _ (fun hc => hko hc.symm), ← hm1eq]
          have hk2 : (mget (trim_manifest cfg m0) k).isSome = true := by
            rw [← hmr]
            exact hk
          rw [mget_trim] at hk2
          by_cases hkreq : k ∈ cfg.requiredManifestKeys
          · refine ⟨hkreq, ?_⟩
            intro hkint
            rcases List.mem_cons.mp hkint with h1 | h2
            · exact hko h1
            · exact hint k hkint hkreq
          · rw [if_neg hkreq] at hk2
            simp at hk2

/-! ### Local plugin directories and manifest collection -/

/-- One directory under plugins/: the parse outcome of each archive's
manifest (outer Option: the archive file exists; inner Option: the
manifest was readable). -/
structure PluginDir where
  dirName : String
  mainManifest : Option (Option Manifest)
  testingManifest : Option (Option Manifest)
  globalManifest : Option (Option Manifest)

/-- The testing-merge block of PluginProcessor.process_plugin_directory:
a readable, non-empty testing manifest donates its version and API level
to the primary manifest. -/
def mergedBase (base0 : Manifest) : Option (Option Manifest) → Manifest
  | some (some t) =>
      if t.isEmpty then base0
      else
        mset (mset base0 "TestingAssemblyVersion" (mgetD t "AssemblyVersion" Val.null))
          "TestingDalamudApiLevel" (mgetD t "DalamudApiLevel" Val.null)
  | _ => base0

/-- PluginProcessor.process_plugin_directory: the primary manifest (with
testing fields merged in) plus, when a readable global archive manifest
exists, a second manifest with the API-suffixed display name. -/
def process_plugin_directory (cfg : Config) (d : PluginDir) : List Manifest :=
  match d.mainManifest with
  | none => []
  | some none => []
  | some (some base0) =>
      if base0.isEmpty then []
      else
        let base := mergedBase base0 d.testingManifest
        match d.globalManifest with
        | some (some g) =>
            if g.isEmpty then [base]
            else
              [base, mset g "Name"
                (Val.str (getStrD g "Name" "" ++ " (API" ++ toString cfg.globalApiLevel ++ ")"))]
        | _ => [base]

/-- PluginMasterGenerator._collect_local_manifests over the directory
listing. -/
def collect_local_manifests (cfg : Config) (dirs : List PluginDir) : List Manifest :=
  dirs.foldl (fun acc d => acc ++ process_plugin_directory cfg d) []

/-- PluginMasterGenerator._get_local_manifest: first manifest of the
named plugin directory, if any. -/
def get_local_manifest (cfg : Config) (dirs : List PluginDir) (pluginName : String) :
    Option Manifest :=
  match dirs.find? (fun d => d.dirName == pluginName) with
  | some d => (process_plugin_directory cfg d).head?
  | none => none

/-- The repository-first loop of _collect_manifests_with_priority:
resolve each repository manifest against its local counterpart and mark
its InternalName as processed. -/
def repoPhase (cfg : Config) (dirs : List PluginDir) :
    List Manifest → List Manifest × List Val → List Manifest × List Val
  | [], acc => acc
  | rm :: rest, (ms, processed) =>
      let pn := mgetD rm "InternalName" Val.null
      if truthy pn then
        let lm := match pn with
          | Val.str s => get_local_manifest cfg dirs s
          | _ => none
        let chosen := match lm with
          | some localM =>
              if localM.isEmpty then rm else choose_better_manifest rm localM
          | none => rm
        repoPhase cfg dirs rest (ms ++ [chosen], processed ++ [pn])
      else
        repoPhase cfg dirs rest (ms, processed)

/-- The remaining-local loop of _collect_manifests_with_priority: add
each local manifest whose truthy InternalName is not yet processed. -/
def localPhase : List Manifest → List Manifest × List Val → List Manifest × List Val
  | [], acc => acc
  | m :: rest, (ms, processed) =>
      let pn := mgetD m "InternalName" Val.null
      if truthy pn && !(processed.contains pn) then
        localPhase rest (ms ++ [m], processed ++ [pn])
      else
        localPhase rest (ms, processed)

/-- The routing-attachment loop at the end of
_collect_manifests_with_priority: untagged manifests get a destination
looked up by display name, then by InternalName, defaulting to
"default". -/
def attach_output_name (cfg : Config) (m : Manifest) : Manifest :=
  if hasKey m "_output_name" then m
  else
    let nameKey := getStrD m "Name" ""
    let internalKey := getStrD m "InternalName" ""
    let outputName :=
      match alookup cfg.pluginOutputs nameKey with
      | some s =>
          if !s.isEmpty then s else (alookup cfg.pluginOutputs internalKey).getD "default"
      | none => (alookup cfg.pluginOutputs internalKey).getD "default"
    mset m "_output_name" (Val.str outputName)

/-- PluginMasterGenerator._collect_manifests_with_priority. -/
def collect_manifests_with_priority (cfg : Config) (dirs : List PluginDir)
    (repoManifests : List Manifest) : List Manifest :=
  let acc1 := repoPhase cfg dirs repoManifests ([], [])
  let acc2 := localPhase (collect_local_manifests cfg dirs) acc1
  acc2.1.map (attach_output_name cfg)

theorem collect_local_acc (cfg : Config) (dirs : List PluginDir) (init : List Manifest) :
    dirs.foldl (fun acc d => acc ++ process_plugin_directory cfg d) init
      = init ++ collect_local_manifests cfg dirs := by
  induction dirs generalizing init with
  | nil => simp [collect_local_manifests]
  | cons d rest ih =>
      show List.foldl _ (init ++ process_plugin_directory cfg d) rest = _
      rw [ih]
      show _ = init ++ List.foldl _ ([] ++ process_plugin_directory cfg d) rest
      rw [ih ([] ++ process_plugin_directory cfg d)]
      simp

theorem localPhase_cons_true (m : Manifest) (L : List Manifest) (ms : List Manifest)
    (processed : List Val)
    (h : (truthy (mgetD m "InternalName" Val.null)
      && !(processed.contains (mgetD m "InternalName" Val.null))) = true) :
    localPhase (m :: L) (ms, processed)
      = localPhase L (ms ++ [m], processed ++ [mgetD m "InternalName" Val.null]) := by
  show (if (truthy (mgetD m "InternalName" Val.null)
      && !(processed.contains (mgetD m "InternalName" Val.null))) = true
    then localPhase L (ms ++ [m], processed ++ [mgetD m "InternalName" Val.null])
    else localPhase L (ms, processed)) = _
  rw [if_pos h]

theorem localPhase_cons_false (m : Manifest) (L : List Manifest) (ms : List Manifest)
    (processed : List Val)
    (h : (truthy (mgetD m "InternalName" Val.null)
      && !(processed.contains (mgetD m "InternalName" Val.null))) = false) :
    localPhase (m :: L) (ms, processed) = localPhase L (ms, processed) := by
  show (if (truthy (mgetD m "InternalName" Val.null)
      && !(processed.contains (mgetD m "InternalName" Val.null))) = true
    then localPhase L (ms ++ [m], processed ++ [mgetD m "InternalName" Val.null])
    else localPhase L (ms, processed)) = _
  rw [if_neg (by rw [h]; exact Bool.false_ne_true)]

theorem localPhase_append (xs ys : List Manifest) (acc : List Manifest × List Val) :
    localPhase (xs ++ ys) acc = localPhase ys (localPhase xs acc) := by
  induction xs generalizing acc with
  | nil => simp [localPhase]
  | cons m rest ih =>
      obtain ⟨ms, processed⟩ := acc
      cases hcond : (truthy (mgetD m "InternalName" Val.null)
          && !(processed.contains (mgetD m "InternalName" Val.null))) with
      | true =>
          rw [show m :: rest ++ ys = m :: (rest ++ ys) from rfl,
            localPhase_cons_true m (rest ++ ys) ms processed hcond,
            localPhase_cons_true m rest ms processed hcond, ih]
      | false =>
          rw [show m :: rest ++ ys = m :: (rest ++ ys) from rfl,
            localPhase_cons_false m (rest ++ ys) ms processed hcond,
            localPhase_cons_false m rest ms processed hcond, ih]

theorem localPhase_sub (L : List Manifest) (acc : List Manifest × List Val)
    (r : Manifest) (hr : r ∈ acc.1) : r ∈ (localPhase L acc).1 := by
  induction L generalizing acc with
  | nil => exact hr
  | cons m rest ih =>
      obtain ⟨ms, processed⟩ := acc
      cases hcond : (truthy (mgetD m "InternalName" Val.null)
          && !(processed.contains (mgetD m "InternalName" Val.null))) with
      | true =>
          rw [localPhase_cons_true m rest ms processed hcond]
          exact ih _ (by simp at hr ⊢; exact Or.inl hr)
      | false =>
          rw [localPhase_cons_false m rest ms processed hcond]
          exact ih _ hr

/-- Claim C9 (amended): a plugin directory unclaimed by the repository
phase with readable primary and global archive manifests contributes its
primary manifest, and contributes the API-suffixed global manifest as a
second entry only when the global manifest carries a truthy InternalName
different from the primary's; when the InternalNames coincide the
dedup-by-InternalName loop drops the global entry. -/
theorem claim_C9 :
    ∀ (cfg : Config) (preDirs postDirs : List PluginDir) (d : PluginDir)
      (repoManifests : List Manifest) (base0 g b gAnn : Manifest)
      (ms2 : List Manifest) (pr2 : List Val),
      d.mainManifest = some (some base0) → base0 ≠ [] →
      d.globalManifest = some (some g) → g ≠ [] →
      b = mergedBase base0 d.testingManifest →
      gAnn = mset g "Name"
        (Val.str (getStrD g "Name" "" ++ " (API" ++ toString cfg.globalApiLevel ++ ")")) →
      (ms2, pr2) = localPhase (collect_local_manifests cfg preDirs)
        (repoPhase cfg (preDirs ++ d :: postDirs) repoManifests ([], [])) →
      truthy (mgetD b "InternalName" Val.null) = true →
      truthy (mgetD gAnn "InternalName" Val.null) = true →
      mgetD b "InternalName" Val.null ∉ pr2 →
      mgetD gAnn "InternalName" Val.null ∉ pr2 →
      mgetD gAnn "InternalName" Val.null ≠ mgetD b "InternalName" Val.null →
      attach_output_name cfg b
          ∈ collect_manifests_with_priority cfg (preDirs ++ d :: postDirs) repoManifests
      ∧ attach_output_name cfg gAnn
          ∈ collect_manifests_with_priority cfg (preDirs ++ d :: postDirs) repoManifests
      ∧ getStrD (attach_output_name cfg gAnn) "Name" ""
          = getStrD g "Name" "" ++ " (API" ++ toString cfg.globalApiLevel ++ ")" := by
  intro cfg preDirs postDirs d repoManifests base0 g b gAnn ms2 pr2
  intro h1 h2 h3 h4 hb hg2 hacc htb htg hnb hng hne
  have hbe : base0.isEmpty = false := by
    cases base0 with
    | nil => exact absurd rfl h2
    | cons a l => rfl
  have hge : g.isEmpty = false := by
    cases g with
    | nil => exact absurd rfl h4
    | cons a l => rfl
  have hproc : process_plugin_directory cfg d = [b, gAnn] := by
    rw [hb, hg2]
    simp only [process_plugin_directory, h1, h3, hbe, hge]
    simp
  have e1 : collect_local_manifests cfg (preDirs ++ d :: postDirs)
      = List.foldl (fun acc d0 => acc ++ process_plugin_directory cfg d0)
          (collect_local_manifests cfg preDirs ++ process_plugin_directory cfg d) postDirs := by
    show List.foldl _ [] (preDirs ++ d :: postDirs) = _
    rw [List.foldl_append, List.foldl_cons]
    rfl
  have hloc : collect_local_manifests cfg (preDirs ++ d :: postDirs)
      = collect_local_manifests cfg preDirs
        ++ (b :: gAnn :: collect_local_manifests cfg postDirs) := by
    rw [e1, collect_local_acc, hproc]
    simp
  have hcoll : collect_manifests_with_priority cfg (preDirs ++ d :: postDirs) repoManifests
      = (localPhase (collect_local_manifests cfg (preDirs ++ d :: postDirs))
          (repoPhase cfg (preDirs ++ d :: postDirs) repoManifests ([], []))).1.map
            (attach_output_name cfg) := rfl
  have hchain : localPhase (collect_local_manifests cfg (preDirs ++ d :: postDirs))
      (repoPhase cfg (preDirs ++ d :: postDirs) repoManifests ([], []))
      = localPhase (gAnn :: collect_local_manifests cfg postDirs)
          (ms2 ++ [b], pr2 ++ [mgetD b "InternalName" Val.null]) := by
    rw [hloc, localPhase_append, ← hacc]
    exact localPhase_cons_true b _ ms2 pr2
      (by
        rw [htb]
        have hcb : pr2.contains (mgetD b "InternalName" Val.null) = false := by
          rw [Bool.eq_false_iff]
          intro hc
          exact hnb (List.mem_of_elem_eq_true hc)
        rw [hcb]
        rfl)
  have hchain2 : localPhase (gAnn :: collect_local_manifests cfg postDirs)
      (ms2 ++ [b], pr2 ++ [mgetD b "InternalName" Val.null])
      = localPhase (collect_local_manifests cfg postDirs)
          (ms2 ++ [b] ++ [gAnn],
           pr2 ++ [mgetD b "InternalName" Val.null] ++ [mgetD gAnn "InternalName" Val.null]) := by
    exact localPhase_cons_true gAnn _ _ _
      (by
        rw [htg]
        have hcg : (pr2 ++ [mgetD b "InternalName" Val.null]).contains
            (mgetD gAnn "InternalName" Val.null) = false := by
          rw [Bool.eq_false_iff]
          intro hc
          rcases List.mem_append.mp (List.mem_of_elem_eq_true hc) with hmem | hmem
          · exact hng hmem
          · exact hne (by simpa using hmem)
        rw [hcg]
        rfl)
  have hnameAttach : ∀ mm : Manifest,
      mget (attach_output_name cfg mm) "Name" = mget mm "Name" := by
    intro mm
    unfold attach_output_name
    cases hok : hasKey mm "_output_name" with
    | true => simp
    | false =>
        simp only [Bool.false_eq_true, if_false]
        exact mget_mset_ne _ "_output_name" "Name" _ (by decide)
  refine ⟨?_, ?_, ?_⟩
  · rw [hcoll, hchain, hchain2]
    exact List.mem_map.mpr ⟨b, localPhase_sub _ _ b (by simp), rfl⟩
  · rw [hcoll, hchain, hchain2]
    exact List.mem_map.mpr ⟨gAnn, localPhase_sub _ _ gAnn (by simp), rfl⟩
  · show getStrD (attach_output_name cfg gAnn) "Name" "" = _
    unfold getStrD
    rw [hnameAttach gAnn, hg2, mget_mset_self]
    rfl

/-- Claim C9 counterexample: a directory with readable primary and
global manifests sharing the InternalName "Foo" yields only one
aggregated entry, and no entry carries the API-suffixed display name the
claim promises. -/
theorem claim_C9_cx :
    (collect_manifests_with_priority
        (Config.mk "main" [("default", "pluginmaster.json")] [] "" "" "" [] [] "" 13)
        [PluginDir.mk "Foo"
          (some (some [("InternalName", Val.str "Foo"), ("Name", Val.str "Foo")])) none
          (some (some [("InternalName", Val.str "Foo"), ("Name", Val.str "Foo")]))]
        []).length = 1
    ∧ ∀ m ∈ collect_manifests_with_priority
        (Config.mk "main" [("default", "pluginmaster.json")] [] "" "" "" [] [] "" 13)
        [PluginDir.mk "Foo"
          (some (some [("InternalName", Val.str "Foo"), ("Name", Val.str "Foo")])) none
          (some (some [("InternalName", Val.str "Foo"), ("Name", Val.str "Foo")]))]
        [], getStrD m "Name" "" ≠ "Foo (API13)" := by
  refine ⟨by decide, by decide⟩

/-- Claim C9 witness: with a global archive manifest whose InternalName
differs from the primary's, both entries appear and the second carries
the annotated display name. -/
theorem claim_C9_witness :
    (Val.str "FooG" : Val) ≠ Val.str "Foo"
    ∧ attach_output_name
        (Config.mk "main" [("default", "pluginmaster.json")] [] "" "" "" [] [] "" 13)
        [("InternalName", Val.str "Foo"), ("Name", Val.str "Foo")]
      ∈ collect_manifests_with_priority
        (Config.mk "main" [("default", "pluginmaster.json")] [] "" "" "" [] [] "" 13)
        [PluginDir.mk "Foo"
          (some (some [("InternalName", Val.str "Foo"), ("Name", Val.str "Foo")])) none
          (some (some [("InternalName", Val.str "FooG"), ("Name", Val.str "Foo")]))]
        []
    ∧ getStrD (attach_output_name
        (Config.mk "main" [("default", "pluginmaster.json")] [] "" "" "" [] [] "" 13)
        (mset [("InternalName", Val.str "FooG"), ("Name", Val.str "Foo")] "Name"
          (Val.str (getStrD [("InternalName", Val.str "FooG"), ("Name", Val.str "Foo")] "Name" ""
            ++ " (API" ++ toString (Config.mk "main" [("default", "pluginmaster.json")] [] "" "" "" [] [] "" 13).globalApiLevel ++ ")"))))
        "Name" ""
      = getStrD [("InternalName", Val.str "FooG"), ("Name", Val.str "Foo")] "Name" ""
        ++ " (API" ++ toString (Config.mk "main" [("default", "pluginmaster.json")] [] "" "" "" [] [] "" 13).globalApiLevel ++ ")" :=
  ⟨by decide,
   (claim_C9
     (Config.mk "main" [("default", "pluginmaster.json")] [] "" "" "" [] [] "" 13)
     [] []
     (PluginDir.mk "Foo"
       (some (some [("InternalName", Val.str "Foo"), ("Name", Val.str "Foo")])) none
       (some (some [("InternalName", Val.str "FooG"), ("Name", Val.str "Foo")])))
     [] [("InternalName", Val.str "Foo"), ("Name", Val.str "Foo")]
     [("InternalName", Val.str "FooG"), ("Name", Val.str "Foo")]
     (mergedBase [("InternalName", Val.str "Foo"), ("Name", Val.str "Foo")] none)
     (mset [("InternalName", Val.str "FooG"), ("Name", Val.str "Foo")] "Name"
       (Val.str (getStrD [("InternalName", Val.str "FooG"), ("Name", Val.str "Foo")] "Name" ""
         ++ " (API" ++ toString (Config.mk "main" [("default", "pluginmaster.json")] [] "" "" "" [] [] "" 13).globalApiLevel ++ ")")))
     [] []
     rfl (by decide) rfl (by decide) rfl rfl rfl
     (by decide) (by decide) (by decide) (by decide) (by decide)).1,
   (claim_C9
     (Config.mk "main" [("default", "pluginmaster.json")] [] "" "" "" [] [] "" 13)
     [] []
     (PluginDir.mk "Foo"
       (some (some [("InternalName", Val.str "Foo"), ("Name", Val.str "Foo")])) none
       (some (some [("InternalName", Val.str "FooG"), ("Name", Val.str "Foo")])))
     [] [("InternalName", Val.str "Foo"), ("Name", Val.str "Foo")]
     [("InternalName", Val.str "FooG"), ("Name", Val.str "Foo")]
     (mergedBase [("InternalName", Val.str "Foo"), ("Name", Val.str "Foo")] none)
     (mset [("InternalName", Val.str "FooG"), ("Name", Val.str "Foo")] "Name"
       (Val.str (getStrD [("InternalName", Val.str "FooG"), ("Name", Val.str "Foo")] "Name" ""
         ++ " (API" ++ toString (Config.mk "main" [("default", "pluginmaster.json")] [] "" "" "" [] [] "" 13).globalApiLevel ++ ")")))
     [] []
     rfl (by decide) rfl (by decide) rfl rfl rfl
     (by decide) (by decide) (by decide) (by decide) (by decide)).2.2⟩

/-! ### Enrichment (PluginProcessor.add_download_links) -/

/-- The install-link block of add_download_links: an explicitly stored
repository asset locator is resolved through the one asset-name lookup
(only when a truthy token name is stored); otherwise a repository-sourced
manifest gets the repository release URL; otherwise the local template
URL (global or main variant) is formatted. -/
def installStage (cfg : Config) (w : World) (isGlobal : Bool) (pluginName : String)
    (isFromRepository : Bool) (m : Manifest) : Manifest :=
  if hasKey m "_repository_asset_url" then
    let assetApiUrl := getStrD m "_repository_asset_url" ""
    let repoUrl := getStrD m "RepoUrl" ""
    let ownerRepo := rstripSlash (strReplace repoUrl "https://github.com/" "")
    let tokenName := mgetD m "_repository_token_name" Val.null
    if truthy tokenName then
      match w.assetNameLookup assetApiUrl tokenName with
      | some assetName =>
          mset m "DownloadLinkInstall"
            (Val.str ("https://github.com/" ++ ownerRepo
              ++ "/releases/latest/download/" ++ assetName))
      | none => m
    else m
  else if isFromRepository then
    match get_repo_download_url w m with
    | some u => mset m "DownloadLinkInstall" (Val.str u)
    | none => m
  else
    mset m "DownloadLinkInstall"
      (Val.str (formatUrl (if isGlobal then cfg.dlGlobal else cfg.dlMain)
        cfg.branch pluginName))

/-- The testing-link block of add_download_links: with a
TestingAssemblyVersion and a non-global name, pop the explicitly resolved
testing URL into DownloadLinkTesting, else format the testing template. -/
def testingStage (cfg : Config) (isGlobal : Bool) (pluginName : String) (m : Manifest) :
    Manifest :=
  if hasKey m "TestingAssemblyVersion" && !isGlobal then
    if hasKey m "_testing_download_url" then
      mset (mdel m "_testing_download_url") "DownloadLinkTesting"
        (mgetD m "_testing_download_url" Val.null)
    else
      mset m "DownloadLinkTesting"
        (Val.str (formatUrl cfg.dlTesting cfg.branch pluginName))
  else m

/-- The field-duplication block of add_download_links. -/
def dupStage (cfg : Config) (m : Manifest) : Manifest :=
  cfg.fieldDuplicates.foldl
    (fun acc p =>
      p.2.foldl
        (fun acc2 target =>
          if hasKey acc2 p.1 && !(hasKey acc2 target) then
            mset acc2 target (mgetD acc2 p.1 Val.null)
          else acc2)
        acc)
    m

/-- The icon-fallback block of add_download_links. -/
def iconStage (cfg : Config) (w : World) (pluginName : String) (m : Manifest) : Manifest :=
  if !(hasKey m "IconUrl") || !(truthy (mgetD m "IconUrl" Val.null)) then
    if w.iconExists pluginName then
      mset m "IconUrl"
        (Val.str ("https://raw.githubusercontent.com/" ++ cfg.repo
          ++ "/main/icons/" ++ pluginName ++ ".png"))
    else m
  else m

/-- PluginProcessor.add_download_links: install link, testing link, field
duplication, icon fallback, counter reset — in source order, with the
global flag, plugin name and repository flag read up front. -/
def add_download_links (cfg : Config) (w : World) (m : Manifest) : Manifest :=
  let isGlobal := strTrails (getStrD m "Name" "")
    ("(API" ++ toString cfg.globalApiLevel ++ ")")
  let pluginName := getStrD m "InternalName" ""
  let isFromRepository := truthy (mgetD m "_repository_source" (Val.bool false))
  mset
    (iconStage cfg w pluginName
      (dupStage cfg
        (testingStage cfg isGlobal pluginName
          (installStage cfg w isGlobal pluginName isFromRepository m))))
    "DownloadCount" (Val.int 0)

theorem installStage_frame (cfg : Config) (w : World) (isGlobal : Bool)
    (pluginName : String) (isFromRepository : Bool) (m : Manifest) (k : String)
    (hk : k ≠ "DownloadLinkInstall") :
    mget (installStage cfg w isGlobal pluginName isFromRepository m) k = mget m k := by
  have hne : "DownloadLinkInstall" ≠ k := fun hc => hk hc.symm
  simp only [installStage]
  split
  · split
    · split
      · exact mget_mset_ne _ _ _ _ hne
      · rfl
    · rfl
  · split
    · split
      · exact mget_mset_ne _ _ _ _ hne
      · rfl
    · exact mget_mset_ne _ _ _ _ hne

theorem testingStage_frame (cfg : Config) (isGlobal : Bool) (pluginName : String)
    (m : Manifest) (k : String) (hk : k ≠ "DownloadLinkTesting")
    (hnopop : ¬(hasKey m "TestingAssemblyVersion" = true ∧ isGlobal = false
      ∧ hasKey m "_testing_download_url" = true)) :
    mget (testingStage cfg isGlobal pluginName m) k = mget m k := by
  have hne : "DownloadLinkTesting" ≠ k := fun hc => hk hc.symm
  unfold testingStage
  split
  next hcond =>
    have hcond2 : hasKey m "TestingAssemblyVersion" = true ∧ (!isGlobal) = true := by
      simpa [Bool.and_eq_true] using hcond
    split
    next hpop =>
      exfalso
      apply hnopop
      refine ⟨hcond2.1, ?_, hpop⟩
      have h2 := hcond2.2
      cases isGlobal with
      | false => rfl
      | true => simp at h2
    next hpop => exact mget_mset_ne _ _ _ _ hne
  next hcond => rfl

theorem dupStage_frame (cfg : Config) (m : Manifest) (k : String)
    (hdup : cfg.fieldDuplicates = [("DownloadLinkInstall", ["DownloadLinkUpdate"])])
    (hk : k ≠ "DownloadLinkUpdate") :
    mget (dupStage cfg m) k = mget m k := by
  have hne : "DownloadLinkUpdate" ≠ k := fun hc => hk hc.symm
  unfold dupStage
  rw [hdup]
  simp only [List.foldl_cons, List.foldl_nil]
  split
  · exact mget_mset_ne _ _ _ _ hne
  · rfl

theorem iconStage_frame (cfg : Config) (w : World) (pluginName : String)
    (m : Manifest) (k : String) (hk : k ≠ "IconUrl") :
    mget (iconStage cfg w pluginName m) k = mget m k := by
  have hne : "IconUrl" ≠ k := fun hc => hk hc.symm
  unfold iconStage
  split
  · split
    · exact mget_mset_ne _ _ _ _ hne
    · rfl
  · rfl

theorem hasKey_congr (m1 m2 : Manifest) (k : String) (h : mget m1 k = mget m2 k) :
    hasKey m1 k = hasKey m2 k := by
  unfold hasKey
  rw [h]

/-- Keys outside the five fields written by enrichment are untouched. -/
theorem add_frame (cfg : Config) (w : World) (m : Manifest) (k : String)
    (hdup : cfg.fieldDuplicates = [("DownloadLinkInstall", ["DownloadLinkUpdate"])])
    (hnopop : ¬(hasKey m "TestingAssemblyVersion" = true
      ∧ strTrails (getStrD m "Name" "") ("(API" ++ toString cfg.globalApiLevel ++ ")") = false
      ∧ hasKey m "_testing_download_url" = true))
    (hk1 : k ≠ "DownloadLinkInstall") (hk2 : k ≠ "DownloadLinkTesting")
    (hk3 : k ≠ "DownloadLinkUpdate") (hk4 : k ≠ "IconUrl") (hk5 : k ≠ "DownloadCount") :
    mget (add_download_links cfg w m) k = mget m k := by
  have hnp1 : ¬(hasKey (installStage cfg w
        (strTrails (getStrD m "Name" "") ("(API" ++ toString cfg.globalApiLevel ++ ")"))
        (getStrD m "InternalName" "")
        (truthy (mgetD m "_repository_source" (Val.bool false))) m)
        "TestingAssemblyVersion" = true
      ∧ strTrails (getStrD m "Name" "") ("(API" ++ toString cfg.globalApiLevel ++ ")") = false
      ∧ hasKey (installStage cfg w
        (strTrails (getStrD m "Name" "") ("(API" ++ toString cfg.globalApiLevel ++ ")"))
        (getStrD m "InternalName" "")
        (truthy (mgetD m "_repository_source" (Val.bool false))) m)
        "_testing_download_url" = true) := by
    intro hc
    apply hnopop
    refine ⟨?_, hc.2.1, ?_⟩
    · rw [← hc.1, hasKey_congr _ m _ (installStage_frame _ _ _ _ _ _ _ (by decide))]
    · rw [← hc.2.2, hasKey_congr _ m _ (installStage_frame _ _ _ _ _ _ _ (by decide))]
  show mget (mset _ "DownloadCount" (Val.int 0)) k = mget m k
  rw [mget_mset_ne _ _ _ _ (fun hc => hk5 hc.symm)]
  rw [iconStage_frame _ _ _ _ _ hk4]
  rw [dupStage_frame _ _ _ hdup hk3]
  rw [testingStage_frame _ _ _ _ _ hk2 hnp1]
  rw [installStage_frame _ _ _ _ _ _ _ hk1]

theorem getStrD_congr (mA mB : Manifest) (k d : String) (h : mget mA k = mget mB k) :
    getStrD mA k d = getStrD mB k d := by
  unfold getStrD
  rw [h]

theorem mgetD_congr (mA mB : Manifest) (k : String) (dv : Val) (h : mget mA k = mget mB k) :
    mgetD mA k dv = mgetD mB k dv := by
  unfold mgetD
  rw [h]

theorem get_repo_download_url_congr (w : World) (mA mB : Manifest)
    (hR : mget mA "RepoUrl" = mget mB "RepoUrl")
    (hI : mget mA "InternalName" = mget mB "InternalName") :
    get_repo_download_url w mA = get_repo_download_url w mB := by
  unfold get_repo_download_url
  rw [getStrD_congr mA mB "RepoUrl" "" hR, getStrD_congr mA mB "InternalName" "" hI]

theorem dupStage_noop (cfg : Config) (m : Manifest)
    (hdup : cfg.fieldDuplicates = [("DownloadLinkInstall", ["DownloadLinkUpdate"])])
    (h : hasKey m "DownloadLinkInstall" = true → hasKey m "DownloadLinkUpdate" = true) :
    dupStage cfg m = m := by
  unfold dupStage
  rw [hdup]
  simp only [List.foldl_cons, List.foldl_nil]
  split
  next hc =>
    exfalso
    have hc2 : hasKey m "DownloadLinkInstall" = true
        ∧ (!(hasKey m "DownloadLinkUpdate")) = true := by
      simpa [Bool.and_eq_true] using hc
    have hdlu := h hc2.1
    have := hc2.2
    rw [hdlu] at this
    simp at this
  next hc => rfl

theorem iconStage_noop (cfg : Config) (w : World) (pn : String) (m : Manifest)
    (h : (hasKey m "IconUrl" = true ∧ truthy (mgetD m "IconUrl" Val.null) = true)
      ∨ w.iconExists pn = false) :
    iconStage cfg w pn m = m := by
  unfold iconStage
  rcases h with ⟨h1, h2⟩ | h3
  · rw [if_neg (by rw [h1, h2]; simp)]
  · split
    next hc => rw [if_neg (by rw [h3]; exact Bool.false_ne_true)]
    next hc => rfl

theorem iconUrl_truthy (repo pn : String) :
    truthy (Val.str ("https://raw.githubusercontent.com/" ++ repo ++ "/main/icons/"
      ++ pn ++ ".png")) = true := by
  have hne : ("https://raw.githubusercontent.com/" ++ repo ++ "/main/icons/"
      ++ pn ++ ".png") ≠ "" := by
    intro hc
    have hl := congrArg String.length hc
    rw [String.length_append, String.length_append, String.length_append,
      String.length_append] at hl
    have h0 : ("https://raw.githubusercontent.com/" : String).length = 34 := by decide
    have h1 : ("" : String).length = 0 := by decide
    rw [h0, h1] at hl
    omega
  have hbeq : (("https://raw.githubusercontent.com/" ++ repo ++ "/main/icons/"
      ++ pn ++ ".png") == "") = false := beq_eq_false_iff_ne.mpr hne
  show (!(("https://raw.githubusercontent.com/" ++ repo ++ "/main/icons/"
      ++ pn ++ ".png") == "")) = true
  rw [hbeq]
  rfl

theorem installStage_congr (cfg : Config) (w : World) (isGlobal : Bool) (pn : String)
    (ifr : Bool) (mA mB : Manifest)
    (hA : mget mA "_repository_asset_url" = mget mB "_repository_asset_url")
    (hR : mget mA "RepoUrl" = mget mB "RepoUrl")
    (hT : mget mA "_repository_token_name" = mget mB "_repository_token_name")
    (hI : mget mA "InternalName" = mget mB "InternalName") :
    (installStage cfg w isGlobal pn ifr mA = mA ∧ installStage cfg w isGlobal pn ifr mB = mB)
    ∨ ∃ v, installStage cfg w isGlobal pn ifr mA = mset mA "DownloadLinkInstall" v
        ∧ installStage cfg w isGlobal pn ifr mB = mset mB "DownloadLinkInstall" v := by
  have e1 : hasKey mB "_repository_asset_url" = hasKey mA "_repository_asset_url" :=
    (hasKey_congr mA mB _ hA).symm
  have e2 : getStrD mB "_repository_asset_url" "" = getStrD mA "_repository_asset_url" "" :=
    (getStrD_congr mA mB _ "" hA).symm
  have e3 : getStrD mB "RepoUrl" "" = getStrD mA "RepoUrl" "" :=
    (getStrD_congr mA mB _ "" hR).symm
  have e4 : mgetD mB "_repository_token_name" Val.null
      = mgetD mA "_repository_token_name" Val.null :=
    (mgetD_congr mA mB _ Val.null hT).symm
  have e5 : get_repo_download_url w mB = get_repo_download_url w mA :=
    (get_repo_download_url_congr w mA mB hR hI).symm
  cases h1 : hasKey mA "_repository_asset_url" with
  | true =>
      cases h2 : truthy (mgetD mA "_repository_token_name" Val.null) with
      | true =>
          cases h3 : w.assetNameLookup (getStrD mA "_repository_asset_url" "")
              (mgetD mA "_repository_token_name" Val.null) with
          | some assetName =>
              refine Or.inr ⟨Val.str ("https://github.com/"
                ++ rstripSlash (strReplace (getStrD mA "RepoUrl" "") "https://github.com/" "")
                ++ "/releases/latest/download/" ++ assetName), ?_, ?_⟩
              · simp [installStage, h1, h2, h3]
              · simp [installStage, e1, e2, e3, e4, h1, h2, h3]
          | none =>
              refine Or.inl ⟨?_, ?_⟩
              · simp [installStage, h1, h2, h3]
              · simp [installStage, e1, e2, e4, h1, h2, h3]
      | false =>
          refine Or.inl ⟨?_, ?_⟩
          · simp [installStage, h1, h2]
          · simp [installStage, e1, e4, h1, h2]
  | false =>
      cases h2 : ifr with
      | true =>
          cases h3 : get_repo_download_url w mA with
          | some u =>
              refine Or.inr ⟨Val.str u, ?_, ?_⟩
              · simp [installStage, h1, h3]
              · simp [installStage, e1, e5, h1, h3]
          | none =>
              refine Or.inl ⟨?_, ?_⟩
              · simp [installStage, h1, h3]
              · simp [installStage, e1, e5, h1, h3]
      | false =>
          refine Or.inr ⟨Val.str (formatUrl (if isGlobal then cfg.dlGlobal else cfg.dlMain)
            cfg.branch pn), ?_, ?_⟩
          · simp [installStage, h1]
          · simp [installStage, e1, h1]

/-- Claim C2 (amended): with the configured field-duplication rule
(DownloadLinkInstall into DownloadLinkUpdate) and a fixed context,
applying add_download_links twice equals applying it once for every
manifest that does not simultaneously carry a TestingAssemblyVersion, a
non-global display name and an explicitly resolved testing download URL;
for such a manifest the first application pops _testing_download_url, so
the second application overwrites DownloadLinkTesting with the template
URL and idempotence fails. -/
theorem claim_C2 :
    ∀ (cfg : Config) (w : World) (m : Manifest),
      cfg.fieldDuplicates = [("DownloadLinkInstall", ["DownloadLinkUpdate"])] →
      ¬(hasKey m "TestingAssemblyVersion" = true
        ∧ strTrails (getStrD m "Name" "") ("(API" ++ toString cfg.globalApiLevel ++ ")") = false
        ∧ hasKey m "_testing_download_url" = true) →
      add_download_links cfg w (add_download_links cfg w m) = add_download_links cfg w m := by
  intro cfg w m hdup hnopop
  obtain ⟨g, hg⟩ : ∃ g, g = strTrails (getStrD m "Name" "")
      ("(API" ++ toString cfg.globalApiLevel ++ ")") := ⟨_, rfl⟩
  obtain ⟨pn, hpn⟩ : ∃ pn, pn = getStrD m "InternalName" "" := ⟨_, rfl⟩
  obtain ⟨ifr, hifr⟩ : ∃ i, i = truthy (mgetD m "_repository_source" (Val.bool false)) :=
    ⟨_, rfl⟩
  obtain ⟨m1, hm1⟩ : ∃ x, x = installStage cfg w g pn ifr m := ⟨_, rfl⟩
  obtain ⟨m2, hm2⟩ : ∃ x, x = testingStage cfg g pn m1 := ⟨_, rfl⟩
  obtain ⟨m3, hm3⟩ : ∃ x, x = dupStage cfg m2 := ⟨_, rfl⟩
  obtain ⟨m4, hm4⟩ : ∃ x, x = iconStage cfg w pn m3 := ⟨_, rfl⟩
  obtain ⟨M, hM⟩ : ∃ x, x = mset m4 "DownloadCount" (Val.int 0) := ⟨_, rfl⟩
  have hnopop2 : ¬(hasKey m "TestingAssemblyVersion" = true ∧ g = false
      ∧ hasKey m "_testing_download_url" = true) := by
    rw [hg]
    exact hnopop
  have hadd1 : add_download_links cfg w m = M := by
    rw [hM, hm4, hm3, hm2, hm1, hg, hpn, hifr]
    rfl
  have hnp1 : ¬(hasKey m1 "TestingAssemblyVersion" = true ∧ g = false
      ∧ hasKey m1 "_testing_download_url" = true) := by
    intro hc
    apply hnopop2
    refine ⟨?_, hc.2.1, ?_⟩
    · have h1 := hc.1
      rw [hm1, hasKey_congr (installStage cfg w g pn ifr m) m "TestingAssemblyVersion"
        (installStage_frame _ _ _ _ _ _ _ (by decide))] at h1
      exact h1
    · have h1 := hc.2.2
      rw [hm1, hasKey_congr (installStage cfg w g pn ifr m) m "_testing_download_url"
        (installStage_frame _ _ _ _ _ _ _ (by decide))] at h1
      exact h1
  have hfrm : ∀ k, k ≠ "DownloadLinkInstall" → k ≠ "DownloadLinkTesting" →
      k ≠ "DownloadLinkUpdate" → k ≠ "IconUrl" → k ≠ "DownloadCount" →
      mget M k = mget m k := by
    intro k h1 h2 h3 h4 h5
    rw [← hadd1]
    exact add_frame cfg w m k hdup hnopop h1 h2 h3 h4 h5
  have hfrm1 : ∀ k, k ≠ "DownloadLinkTesting" → k ≠ "DownloadLinkUpdate" →
      k ≠ "IconUrl" → k ≠ "DownloadCount" → mget M k = mget m1 k := by
    intro k h2 h3 h4 h5
    rw [hM, mget_mset_ne _ _ _ _ (fun hc => h5 hc.symm), hm4,
      iconStage_frame _ _ _ _ _ h4, hm3, dupStage_frame _ _ _ hdup h3, hm2,
      testingStage_frame _ _ _ _ _ h2 hnp1]
  have hadd2 : add_download_links cfg w M
      = mset (iconStage cfg w pn (dupStage cfg (testingStage cfg g pn
          (installStage cfg w g pn ifr M)))) "DownloadCount" (Val.int 0) := by
    have hNm : mget M "Name" = mget m "Name" :=
      hfrm _ (by decide) (by decide) (by decide) (by decide) (by decide)
    have hIN : mget M "InternalName" = mget m "InternalName" :=
      hfrm _ (by decide) (by decide) (by decide) (by decide) (by decide)
    have hRS : mget M "_repository_source" = mget m "_repository_source" :=
      hfrm _ (by decide) (by decide) (by decide) (by decide) (by decide)
    have hg2 : strTrails (getStrD M "Name" "")
        ("(API" ++ toString cfg.globalApiLevel ++ ")") = g := by
      rw [getStrD_congr M m "Name" "" hNm, ← hg]
    have hpn2 : getStrD M "InternalName" "" = pn := by
      rw [getStrD_congr M m "InternalName" "" hIN, ← hpn]
    have hifr2 : truthy (mgetD M "_repository_source" (Val.bool false)) = ifr := by
      rw [mgetD_congr M m "_repository_source" (Val.bool false) hRS, ← hifr]
    show mset (iconStage cfg w (getStrD M "InternalName" "")
        (dupStage cfg (testingStage cfg
          (strTrails (getStrD M "Name" "") ("(API" ++ toString cfg.globalApiLevel ++ ")"))
          (getStrD M "InternalName" "")
          (installStage cfg w
            (strTrails (getStrD M "Name" "") ("(API" ++ toString cfg.globalApiLevel ++ ")"))
            (getStrD M "InternalName" "")
            (truthy (mgetD M "_repository_source" (Val.bool false))) M))))
        "DownloadCount" (Val.int 0) = _
    rw [hg2, hpn2, hifr2]
  have hinstM : installStage cfg w g pn ifr M = M := by
    have hA : mget M "_repository_asset_url" = mget m "_repository_asset_url" :=
      hfrm _ (by decide) (by decide) (by decide) (by decide) (by decide)
    have hR : mget M "RepoUrl" = mget m "RepoUrl" :=
      hfrm _ (by decide) (by decide) (by decide) (by decide) (by decide)
    have hTk : mget M "_repository_token_name" = mget m "_repository_token_name" :=
      hfrm _ (by decide) (by decide) (by decide) (by decide) (by decide)
    have hIN : mget M "InternalName" = mget m "InternalName" :=
      hfrm _ (by decide) (by decide) (by decide) (by decide) (by decide)
    rcases installStage_congr cfg w g pn ifr M m hA hR hTk hIN with ⟨hMi, hmi⟩ | ⟨v, hMv, hmv⟩
    · exact hMi
    · rw [hMv]
      apply mset_cancel
      rw [hfrm1 "DownloadLinkInstall" (by decide) (by decide) (by decide) (by decide),
        hm1, hmv, mget_mset_self]
  have htestM : testingStage cfg g pn M = M := by
    cases hTAV : hasKey m "TestingAssemblyVersion" with
    | false =>
        have hTAVM : hasKey M "TestingAssemblyVersion" = false := by
          rw [hasKey_congr M m _
            (hfrm _ (by decide) (by decide) (by decide) (by decide) (by decide))]
          exact hTAV
        unfold testingStage
        rw [if_neg (by rw [hTAVM]; simp)]
    | true =>
        cases hgval : g with
        | true =>
            unfold testingStage
            rw [if_neg (by simp)]
        | false =>
            have htdu : hasKey m "_testing_download_url" = false := by
              cases h : hasKey m "_testing_download_url" with
              | false => rfl
              | true => exact absurd ⟨hTAV, hgval, h⟩ hnopop2
            have hTAVM : hasKey M "TestingAssemblyVersion" = true := by
              rw [hasKey_congr M m _
                (hfrm _ (by decide) (by decide) (by decide) (by decide) (by decide))]
              exact hTAV
            have htduM : hasKey M "_testing_download_url" = false := by
              rw [hasKey_congr M m _
                (hfrm _ (by decide) (by decide) (by decide) (by decide) (by decide))]
              exact htdu
            have hTAVm1 : hasKey m1 "TestingAssemblyVersion" = true := by
              rw [hm1, hasKey_congr _ m _ (installStage_frame _ _ _ _ _ _ _ (by decide))]
              exact hTAV
            have htdum1 : hasKey m1 "_testing_download_url" = false := by
              rw [hm1, hasKey_congr _ m _ (installStage_frame _ _ _ _ _ _ _ (by decide))]
              exact htdu
            have hm2eq : m2 = mset m1 "DownloadLinkTesting"
                (Val.str (formatUrl cfg.dlTesting cfg.branch pn)) := by
              rw [hm2]
              unfold testingStage
              rw [if_pos (by rw [hTAVm1, hgval]; rfl)]
              rw [if_neg (by rw [htdum1]; exact Bool.false_ne_true)]
            have hMdlt : mget M "DownloadLinkTesting"
                = some (Val.str (formatUrl cfg.dlTesting cfg.branch pn)) := by
              rw [hM, mget_mset_ne _ _ _ _ (by decide), hm4,
                iconStage_frame _ _ _ _ _ (by decide), hm3,
                dupStage_frame _ _ _ hdup (by decide), hm2eq, mget_mset_self]
            unfold testingStage
            rw [if_pos (by rw [hTAVM]; rfl)]
            rw [if_neg (by rw [htduM]; exact Bool.false_ne_true)]
            exact mset_cancel _ _ _ hMdlt
  have hdupM : dupStage cfg M = M := by
    apply dupStage_noop cfg M hdup
    intro hDLI
    have eM1 : mget M "DownloadLinkInstall" = mget m1 "DownloadLinkInstall" :=
      hfrm1 _ (by decide) (by decide) (by decide) (by decide)
    have e21 : mget m2 "DownloadLinkInstall" = mget m1 "DownloadLinkInstall" := by
      rw [hm2]
      exact testingStage_frame _ _ _ _ _ (by decide) hnp1
    have hDLI2 : hasKey m2 "DownloadLinkInstall" = true := by
      rw [hasKey_congr m2 M _ (by rw [e21, ← eM1])]
      exact hDLI
    cases hDLU2 : hasKey m2 "DownloadLinkUpdate" with
    | true =>
        have hm3eq : m3 = m2 := by
          rw [hm3]
          exact dupStage_noop cfg m2 hdup (fun _ => hDLU2)
        have eMU : mget M "DownloadLinkUpdate" = mget m2 "DownloadLinkUpdate" := by
          rw [hM, mget_mset_ne _ _ _ _ (by decide), hm4,
            iconStage_frame _ _ _ _ _ (by decide), hm3eq]
        rw [hasKey_congr M m2 _ eMU]
        exact hDLU2
    | false =>
        have hm3eq : m3 = mset m2 "DownloadLinkUpdate"
            (mgetD m2 "DownloadLinkInstall" Val.null) := by
          rw [hm3]
          unfold dupStage
          rw [hdup]
          simp only [List.foldl_cons, List.foldl_nil]
          rw [if_pos (by rw [hDLI2, hDLU2]; rfl)]
        have eMU : mget M "DownloadLinkUpdate"
            = some (mgetD m2 "DownloadLinkInstall" Val.null) := by
          rw [hM, mget_mset_ne _ _ _ _ (by decide), hm4,
            iconStage_frame _ _ _ _ _ (by decide), hm3eq, mget_mset_self]
        unfold hasKey
        rw [eMU]
        rfl
  have hiconM : iconStage cfg w pn M = M := by
    apply iconStage_noop
    cases hEx : w.iconExists pn with
    | false => exact Or.inr rfl
    | true =>
        left
        cases hC : (!(hasKey m3 "IconUrl") || !(truthy (mgetD m3 "IconUrl" Val.null))) with
        | true =>
            have hm4eq : m4 = mset m3 "IconUrl"
                (Val.str ("https://raw.githubusercontent.com/" ++ cfg.repo
                  ++ "/main/icons/" ++ pn ++ ".png")) := by
              rw [hm4]
              unfold iconStage
              rw [if_pos hC, if_pos hEx]
            have hMicon : mget M "IconUrl"
                = some (Val.str ("https://raw.githubusercontent.com/" ++ cfg.repo
                  ++ "/main/icons/" ++ pn ++ ".png")) := by
              rw [hM, mget_mset_ne _ _ _ _ (by decide), hm4eq, mget_mset_self]
            constructor
            · unfold hasKey
              rw [hMicon]
              rfl
            · unfold mgetD
              rw [hMicon]
              exact iconUrl_truthy cfg.repo pn
        | false =>
            have hfalse := hC
            have hpair : hasKey m3 "IconUrl" = true
                ∧ truthy (mgetD m3 "IconUrl" Val.null) = true := by
              constructor
              · cases hk : hasKey m3 "IconUrl" with
                | true => rfl
                | false => rw [hk] at hfalse; simp at hfalse
              · cases ht : truthy (mgetD m3 "IconUrl" Val.null) with
                | true => rfl
                | false => rw [ht] at hfalse; simp at hfalse
            have hm4eq : m4 = m3 := by
              rw [hm4]
              unfold iconStage
              rw [if_neg (by rw [hC]; exact Bool.false_ne_true)]
            have hMicon : mget M "IconUrl" = mget m3 "IconUrl" := by
              rw [hM, mget_mset_ne _ _ _ _ (by decide), hm4eq]
            constructor
            · rw [hasKey_congr M m3 _ hMicon]
              exact hpair.1
            · rw [mgetD_congr M m3 _ Val.null hMicon]
              exact hpair.2
  rw [hadd1, hadd2, hinstM, htestM, hdupM, hiconM]
  apply mset_cancel
  rw [hM, mget_mset_self]

/-- Claim C2 counterexample: a manifest carrying TestingAssemblyVersion
together with an explicitly resolved testing download URL — the very
case the claim singles out — is not enriched idempotently: the first
pass pops _testing_download_url into DownloadLinkTesting, and the second
pass overwrites that link with the formatted testing template URL. -/
theorem claim_C2_cx :
    add_download_links
      (Config.mk "main" [("default", "pluginmaster.json")] []
        "https://x/\x7bbranch\x7d/\x7bplugin_name\x7d/latest.zip"
        "https://x/\x7bbranch\x7d/\x7bplugin_name\x7d/testing/latest.zip"
        "https://x/\x7bbranch\x7d/\x7bplugin_name\x7d/global/latest.zip"
        defaultRequiredManifestKeys [("DownloadLinkInstall", ["DownloadLinkUpdate"])]
        "WigglyMuffin/DalamudPlugins" 13)
      (World.mk (fun _ _ => none) (fun _ _ => none) (fun _ => false))
      (add_download_links
        (Config.mk "main" [("default", "pluginmaster.json")] []
          "https://x/\x7bbranch\x7d/\x7bplugin_name\x7d/latest.zip"
          "https://x/\x7bbranch\x7d/\x7bplugin_name\x7d/testing/latest.zip"
          "https://x/\x7bbranch\x7d/\x7bplugin_name\x7d/global/latest.zip"
          defaultRequiredManifestKeys [("DownloadLinkInstall", ["DownloadLinkUpdate"])]
          "WigglyMuffin/DalamudPlugins" 13)
        (World.mk (fun _ _ => none) (fun _ _ => none) (fun _ => false))
        [("Name", Val.str "Foo"), ("InternalName", Val.str "Foo"),
         ("TestingAssemblyVersion", Val.str "1.0.0"),
         ("_testing_download_url", Val.str "https://example.com/t.zip")])
      ≠ add_download_links
      (Config.mk "main" [("default", "pluginmaster.json")] []
        "https://x/\x7bbranch\x7d/\x7bplugin_name\x7d/latest.zip"
        "https://x/\x7bbranch\x7d/\x7bplugin_name\x7d/testing/latest.zip"
        "https://x/\x7bbranch\x7d/\x7bplugin_name\x7d/global/latest.zip"
        defaultRequiredManifestKeys [("DownloadLinkInstall", ["DownloadLinkUpdate"])]
        "WigglyMuffin/DalamudPlugins" 13)
      (World.mk (fun _ _ => none) (fun _ _ => none) (fun _ => false))
      [("Name", Val.str "Foo"), ("InternalName", Val.str "Foo"),
       ("TestingAssemblyVersion", Val.str "1.0.0"),
       ("_testing_download_url", Val.str "https://example.com/t.zip")] := by
  decide

/-- Claim C2 witness: the amended idempotence applied to a plain local
manifest, with both hypotheses discharged concretely. -/
theorem claim_C2_witness :
    (Config.mk "main" [("default", "pluginmaster.json")] []
        "https://x/\x7bbranch\x7d/\x7bplugin_name\x7d/latest.zip"
        "https://x/\x7bbranch\x7d/\x7bplugin_name\x7d/testing/latest.zip"
        "https://x/\x7bbranch\x7d/\x7bplugin_name\x7d/global/latest.zip"
        defaultRequiredManifestKeys [("DownloadLinkInstall", ["DownloadLinkUpdate"])]
        "WigglyMuffin/DalamudPlugins" 13).fieldDuplicates
      = [("DownloadLinkInstall", ["DownloadLinkUpdate"])]
    ∧ add_download_links
        (Config.mk "main" [("default", "pluginmaster.json")] []
          "https://x/\x7bbranch\x7d/\x7bplugin_name\x7d/latest.zip"
          "https://x/\x7bbranch\x7d/\x7bplugin_name\x7d/testing/latest.zip"
          "https://x/\x7bbranch\x7d/\x7bplugin_name\x7d/global/latest.zip"
          defaultRequiredManifestKeys [("DownloadLinkInstall", ["DownloadLinkUpdate"])]
          "WigglyMuffin/DalamudPlugins" 13)
        (World.mk (fun _ _ => none) (fun _ _ => none) (fun _ => false))
        (add_download_links
          (Config.mk "main" [("default", "pluginmaster.json")] []
            "https://x/\x7bbranch\x7d/\x7bplugin_name\x7d/latest.zip"
            "https://x/\x7bbranch\x7d/\x7bplugin_name\x7d/testing/latest.zip"
            "https://x/\x7bbranch\x7d/\x7bplugin_name\x7d/global/latest.zip"
            defaultRequiredManifestKeys [("DownloadLinkInstall", ["DownloadLinkUpdate"])]
            "WigglyMuffin/DalamudPlugins" 13)
          (World.mk (fun _ _ => none) (fun _ _ => none) (fun _ => false))
          [("Name", Val.str "Foo"), ("InternalName", Val.str "Foo")])
      = add_download_links
        (Config.mk "main" [("default", "pluginmaster.json")] []
          "https://x/\x7bbranch\x7d/\x7bplugin_name\x7d/latest.zip"
          "https://x/\x7bbranch\x7d/\x7bplugin_name\x7d/testing/latest.zip"
          "https://x/\x7bbranch\x7d/\x7bplugin_name\x7d/global/latest.zip"
          defaultRequiredManifestKeys [("DownloadLinkInstall", ["DownloadLinkUpdate"])]
          "WigglyMuffin/DalamudPlugins" 13)
        (World.mk (fun _ _ => none) (fun _ _ => none) (fun _ => false))
        [("Name", Val.str "Foo"), ("InternalName", Val.str "Foo")] :=
  ⟨rfl,
   claim_C2
     (Config.mk "main" [("default", "pluginmaster.json")] []
       "https://x/\x7bbranch\x7d/\x7bplugin_name\x7d/latest.zip"
       "https://x/\x7bbranch\x7d/\x7bplugin_name\x7d/testing/latest.zip"
       "https://x/\x7bbranch\x7d/\x7bplugin_name\x7d/global/latest.zip"
       defaultRequiredManifestKeys [("DownloadLinkInstall", ["DownloadLinkUpdate"])]
       "WigglyMuffin/DalamudPlugins" 13)
     (World.mk (fun _ _ => none) (fun _ _ => none) (fun _ => false))
     [("Name", Val.str "Foo"), ("InternalName", Val.str "Foo")]
     rfl (by decide)⟩

/-- Claim C8 witness: the final-pass record property applied at a
concrete run whose single manifest carries an internal provenance flag. -/
theorem claim_C8_witness :
    (∀ f ∈ internalFields,
      f ∉ (Config.mk "main" [("default", "pluginmaster.json")] [] "" "" ""
        defaultRequiredManifestKeys [] "" 13).requiredManifestKeys)
    ∧ ("pluginmaster.json", [[("Name", Val.str "m")]])
        ∈ (finalize_and_write
            (Config.mk "main" [("default", "pluginmaster.json")] [] "" "" ""
              defaultRequiredManifestKeys [] "" 13)
            [[("Name", Val.str "m"), ("_repository_source", Val.bool true)]] []).log
    ∧ hasKey [("Name", Val.str "m")] "Name" = true
    ∧ ("Name" ∈ (Config.mk "main" [("default", "pluginmaster.json")] [] "" "" ""
        defaultRequiredManifestKeys [] "" 13).requiredManifestKeys
      ∧ "Name" ∉ internalFields) :=
  ⟨by decide, by decide, by decide,
   claim_C8.2.1
     (Config.mk "main" [("default", "pluginmaster.json")] [] "" "" ""
       defaultRequiredManifestKeys [] "" 13)
     [[("Name", Val.str "m"), ("_repository_source", Val.bool true)]] []
     (by decide)
     ("pluginmaster.json", [[("Name", Val.str "m")]]) (by decide)
     [("Name", Val.str "m")] (by decide)
     "Name" (by decide)⟩
